import Mathlib

/-!
The RPN evaluator and the evaluation service of charithe/calculator.

A shallow embedding of `pkg/calculator/rpn.go`, `pkg/calculator/service.go` and
`pkg/calculator/client.go`.

* `float64` is kept abstract: the evaluator is generic in a value type `V` that
  carries a zero value and the four operations `+ - * /` used by `pushOperator`.
  Nothing below depends on a law of arithmetic, so every theorem holds for IEEE
  binary64 as well as for the exact rationals used in the concrete examples
  (and for the extended non-negative reals used for the one example of a
  division by zero).
* A method with a pointer receiver becomes a function that returns the values
  the method returns together with the evaluator after the call.
* Indexing the fixed-size array outside `[0, stackSize)` is a run-time panic in
  Go; it is the `Exec.panic` outcome here.
-/

namespace Calculator

/-! ## Types of the generated package `v1pb` -/

/-- Modelled from the spec: the enumeration `v1pb.Operator` (the generated
package `v1pb` is not part of the sources). The spec names the closed set
ADD, SUBTRACT, MULTIPLY, DIVIDE; a protobuf enumeration is an integer on the
wire, so any other tag can be received and is kept as `UNRECOGNIZED tag`. -/
inductive Operator where
  | ADD
  | SUBTRACT
  | MULTIPLY
  | DIVIDE
  | UNRECOGNIZED (tag : Int)
  deriving DecidableEq, Repr

/-- Modelled from the spec: `Operator.String()` of the generated package, the
name of a known tag and the decimal number of any other one. -/
def Operator.String : Operator → String
  | .ADD => "ADD"
  | .SUBTRACT => "SUBTRACT"
  | .MULTIPLY => "MULTIPLY"
  | .DIVIDE => "DIVIDE"
  | .UNRECOGNIZED tag => toString tag

/-- The four tags that `pushOperator` has a case for. -/
def Operator.supported : Operator → Bool
  | .UNRECOGNIZED _ => false
  | _ => true

/-- Modelled from the spec: the message `v1pb.Token`, a tagged union of an
operand (`*v1pb.Token_Operand`), an operator (`*v1pb.Token_Operator`), or
neither when the union is not set. -/
inductive Token (V : Type) where
  | operand (value : V)
  | operator (op : Operator)
  | unset
  deriving DecidableEq, Repr

/-! ## rpn.go -/

/-- Source: `const stackSize = 16`. -/
def stackSize : Nat := 16

/-- Source: `type rpnEvaluator struct { stack [stackSize]float64; ptr int }`. -/
structure rpnEvaluator (V : Type) where
  stack : Fin stackSize → V
  ptr : Int

/-- The four places where rpn.go builds an error value. -/
inductive EvalError where
  /-- Built by `errors.New("stack full")` in `pushOperand`. -/
  | StackFull
  /-- Built by `errors.New("not enough operands")` in `pushOperator`. -/
  | InsufficientOperands
  /-- Built by `fmt.Errorf("unimplemented operator: %s", op)` in `pushOperator`. -/
  | UnsupportedOperator (op : Operator)
  /-- Built by `errors.New("incomplete expression: ...")` in `result`. -/
  | IncompleteExpression
  deriving DecidableEq, Repr

/-- The text returned by the `Error()` method of each error value. -/
def EvalError.Error : EvalError → String
  | .StackFull => "stack full"
  | .InsufficientOperands => "not enough operands"
  | .UnsupportedOperator op => "unimplemented operator: " ++ op.String
  | .IncompleteExpression => "incomplete expression: unused operands still in stack"

/-- Outcome of running a piece of Go code: it returns `a`, or it panics. -/
inductive Exec (α : Type) where
  | ret (a : α)
  | panic
  deriving DecidableEq, Repr

/-- Source: `&rpnEvaluator{}`, the zero value of the struct. -/
def rpnEvaluator.fresh {V : Type} [Zero V] : rpnEvaluator V :=
  { stack := fun _ => 0, ptr := 0 }

section Evaluator

variable {V : Type}

/-- Array read `r.stack[i]`: a panic when the index is out of range. -/
def rpnEvaluator.stackGet (r : rpnEvaluator V) (i : Int) : Exec V :=
  if h : 0 ≤ i ∧ i < (stackSize : Int) then
    .ret (r.stack ⟨i.toNat, by have := h.1; have := h.2; omega⟩)
  else .panic

/-- Array write `r.stack[i] = v`: a panic when the index is out of range. -/
def rpnEvaluator.stackSet (r : rpnEvaluator V) (i : Int) (v : V) : Exec (rpnEvaluator V) :=
  if h : 0 ≤ i ∧ i < (stackSize : Int) then
    .ret { r with stack := Function.update r.stack ⟨i.toNat, by have := h.1; have := h.2; omega⟩ v }
  else .panic

/-- Source: `func (r *rpnEvaluator) pushOperand(v float64) error`.
Returns the error (`none` for `nil`) and the evaluator after the call. -/
def rpnEvaluator.pushOperand (r : rpnEvaluator V) (v : V) :
    Exec (Option EvalError × rpnEvaluator V) :=
  if r.ptr ≥ (stackSize : Int) - 1 then
    .ret (some .StackFull, r)
  else
    match r.stackSet r.ptr v with
    | .panic => .panic
    | .ret r1 => .ret (none, { r1 with ptr := r1.ptr + 1 })

/-- Source: `func (r *rpnEvaluator) pop() float64`: decrement, then read. -/
def rpnEvaluator.pop (r : rpnEvaluator V) : Exec (V × rpnEvaluator V) :=
  let r1 : rpnEvaluator V := { r with ptr := r.ptr - 1 }
  match r1.stackGet r1.ptr with
  | .panic => .panic
  | .ret v => .ret (v, r1)

/-- Source: `func (r *rpnEvaluator) pushOperator(op v1pb.Operator) error`. -/
def rpnEvaluator.pushOperator [Add V] [Sub V] [Mul V] [Div V]
    (r : rpnEvaluator V) (op : Operator) : Exec (Option EvalError × rpnEvaluator V) :=
  if r.ptr < 2 then
    .ret (some .InsufficientOperands, r)
  else
    match r.pop with
    | .panic => .panic
    | .ret (v2, r1) =>
      match r1.pop with
      | .panic => .panic
      | .ret (v1, r2) =>
        match op with
        | .ADD => r2.pushOperand (v1 + v2)
        | .SUBTRACT => r2.pushOperand (v1 - v2)
        | .MULTIPLY => r2.pushOperand (v1 * v2)
        | .DIVIDE => r2.pushOperand (v1 / v2)
        | .UNRECOGNIZED tag => .ret (some (.UnsupportedOperator (.UNRECOGNIZED tag)), r2)

/-- Source: `func (r *rpnEvaluator) result() (float64, error)`. -/
def rpnEvaluator.result [Zero V] (r : rpnEvaluator V) :
    Exec ((V × Option EvalError) × rpnEvaluator V) :=
  if r.ptr ≠ 1 then
    .ret ((0, some .IncompleteExpression), r)
  else
    match r.pop with
    | .panic => .panic
    | .ret (v, r1) => .ret ((v, none), r1)

/-- The resident sequence, bottom first: the slots `stack[0], ..., stack[ptr-1]`. -/
def rpnEvaluator.resident (r : rpnEvaluator V) : List V :=
  (List.ofFn r.stack).take r.ptr.toNat

/-- The value `v1 op v2` computed by the `switch` of `pushOperator`; `none` for
an operator that has no case. -/
def Operator.apply [Add V] [Sub V] [Mul V] [Div V] (op : Operator) (v1 v2 : V) : Option V :=
  match op with
  | .ADD => some (v1 + v2)
  | .SUBTRACT => some (v1 - v2)
  | .MULTIPLY => some (v1 * v2)
  | .DIVIDE => some (v1 / v2)
  | .UNRECOGNIZED _ => none

end Evaluator

/-! ## service.go -/

/-- The two codes of `google.golang.org/grpc/codes` used by service.go. -/
inductive Code where
  | InvalidArgument
  | ResourceExhausted
  deriving DecidableEq, Repr

/-- The non-nil values of `ctx.Err()`. -/
inductive ContextError where
  | Canceled
  | DeadlineExceeded
  deriving DecidableEq, Repr

/-- The error values that the two service methods return. -/
inductive RpcError where
  /-- A status error built by `grpc.Errorf(code, msg)`. -/
  | status (code : Code) (msg : String)
  /-- The error of the call context, returned as it is. -/
  | context (e : ContextError)
  /-- An error of the transport (`stream.Recv`, `stream.SendAndClose`), returned as it is. -/
  | transport (msg : String)
  deriving DecidableEq, Repr

/-- The call `grpc.Errorf(c, err.Error())`. The text is used as a format string
without arguments; no text produced by `EvalError.Error` holds a formatting
verb, so the status message is the text itself. -/
def grpcErrorf (c : Code) (msg : String) : RpcError := .status c msg

/-- Modelled from the spec: the message `v1pb.EvaluateStreamRequest`; its field
`Token` is a pointer, `none` when the message carries no token. -/
structure EvaluateStreamRequest (V : Type) where
  Token : Option (Token V)

/-- Modelled from the spec: the message `v1pb.EvaluateStreamResponse`. -/
structure EvaluateStreamResponse (V : Type) where
  Result : V
  deriving DecidableEq, Repr

/-- Modelled from the spec: the message `v1pb.EvaluateBatchRequest`. -/
structure EvaluateBatchRequest (V : Type) where
  Tokens : List (Token V)

/-- Modelled from the spec: the message `v1pb.EvaluateBatchResponse`. -/
structure EvaluateBatchResponse (V : Type) where
  Result : V
  deriving DecidableEq, Repr

/-- How the receive side of a stream ends: the error `stream.Recv` returns once
every request has been delivered. -/
inductive RecvEnd where
  /-- The client closed its side: `io.EOF`. -/
  | EOF
  /-- Any other error of the transport. -/
  | failure (msg : String)
  deriving DecidableEq, Repr

/-- The server side of one streaming call, `v1pb.Calculator_EvaluateStreamServer`:
the requests `Recv` delivers in order, the error it returns after them, and the
error (if any) with which `SendAndClose` answers. -/
structure ServerStream (V : Type) where
  incoming : List (EvaluateStreamRequest V)
  closing : RecvEnd
  sendError : Option String

/-- What one run of `EvaluateStream` did: the error it returned (`none` for
`nil`), the messages it handed to `SendAndClose`, and the requests it never
received. -/
structure StreamOutcome (V : Type) where
  err : Option RpcError
  sent : List (EvaluateStreamResponse V)
  unread : List (EvaluateStreamRequest V)

section Service

variable {V : Type} [Zero V] [Add V] [Sub V] [Mul V] [Div V]

/-- The `for` loop of `Service.EvaluateStream`, started with evaluator `r` and
the requests still to be received. -/
def streamLoop (closing : RecvEnd) (sendError : Option String) (r : rpnEvaluator V) :
    List (EvaluateStreamRequest V) → Exec (StreamOutcome V)
  | [] =>
    match closing with
    | .EOF =>
      match r.result with
      | .panic => .panic
      | .ret ((_, some err), _) =>
        .ret { err := some (grpcErrorf .InvalidArgument err.Error), sent := [], unread := [] }
      | .ret ((res, none), _) =>
        match sendError with
        | some e => .ret { err := some (.transport e), sent := [⟨res⟩], unread := [] }
        | none => .ret { err := none, sent := [⟨res⟩], unread := [] }
    | .failure e => .ret { err := some (.transport e), sent := [], unread := [] }
  | req :: rest =>
    match req.Token with
    | none => .panic
    | some (.operand v) =>
      match r.pushOperand v with
      | .panic => .panic
      | .ret (some err, _) =>
        .ret { err := some (grpcErrorf .ResourceExhausted err.Error), sent := [], unread := rest }
      | .ret (none, r1) => streamLoop closing sendError r1 rest
    | some (.operator op) =>
      match r.pushOperator op with
      | .panic => .panic
      | .ret (some err, _) =>
        .ret { err := some (grpcErrorf .InvalidArgument err.Error), sent := [], unread := rest }
      | .ret (none, r1) => streamLoop closing sendError r1 rest
    | some .unset => streamLoop closing sendError r rest

/-- Source: `func (s *Service) EvaluateStream(stream) error`. -/
def EvaluateStream (stream : ServerStream V) : Exec (StreamOutcome V) :=
  streamLoop stream.closing stream.sendError rpnEvaluator.fresh stream.incoming

/-- The `for _, t := range req.Tokens` loop of `Service.EvaluateBatch`, started
with evaluator `r`: the error the method returns from inside the loop, or the
evaluator when the loop runs to its end. -/
def batchLoop (r : rpnEvaluator V) : List (Token V) → Exec (Except RpcError (rpnEvaluator V))
  | [] => .ret (.ok r)
  | t :: rest =>
    match t with
    | .operand v =>
      match r.pushOperand v with
      | .panic => .panic
      | .ret (some err, _) => .ret (.error (grpcErrorf .ResourceExhausted err.Error))
      | .ret (none, r1) => batchLoop r1 rest
    | .operator op =>
      match r.pushOperator op with
      | .panic => .panic
      | .ret (some err, _) => .ret (.error (grpcErrorf .InvalidArgument err.Error))
      | .ret (none, r1) => batchLoop r1 rest
    | .unset => batchLoop r rest

/-- Source: `func (s *Service) EvaluateBatch(ctx, req) (*EvaluateBatchResponse, error)`;
`ctxErr` is the value of `ctx.Err()` on entry. -/
def EvaluateBatch (ctxErr : Option ContextError) (req : EvaluateBatchRequest V) :
    Exec (Option (EvaluateBatchResponse V) × Option RpcError) :=
  match ctxErr with
  | some err => .ret (none, some (.context err))
  | none =>
    match batchLoop rpnEvaluator.fresh req.Tokens with
    | .panic => .panic
    | .ret (.error e) => .ret (none, some e)
    | .ret (.ok r) =>
      match r.result with
      | .panic => .panic
      | .ret ((_, some err), _) => .ret (none, some (grpcErrorf .InvalidArgument err.Error))
      | .ret ((res, none), _) => .ret (some ⟨res⟩, none)

/-- The stream on which the client sends exactly `tokens` and then closes its
side, with no error of the transport. -/
def cleanStream (tokens : List (Token V)) : ServerStream V :=
  { incoming := tokens.map fun t => ⟨some t⟩, closing := .EOF, sendError := none }

end Service

section TestDrivers

variable {V : Type}

/-- Consecutive `pushOperand` calls on one evaluator, as in the loop of
`TestRPNEvaluator/pushOperand`: the error returned by each call, in order, and
the evaluator after the last call. -/
def pushOperands (r : rpnEvaluator V) : List V → Exec (List (Option EvalError) × rpnEvaluator V)
  | [] => .ret ([], r)
  | v :: vs =>
    match r.pushOperand v with
    | .panic => .panic
    | .ret (e, r1) =>
      match pushOperands r1 vs with
      | .panic => .panic
      | .ret (es, r2) => .ret (e :: es, r2)

end TestDrivers

section Reference

variable {V : Type}

/-- Running depth of a token list: operands seen minus operators seen. -/
def depth : List (Token V) → Int
  | [] => 0
  | .operand _ :: ts => depth ts + 1
  | .operator _ :: ts => depth ts - 1
  | .unset :: ts => depth ts

/-- A token that is an operand or one of the four supported operators. -/
def Token.wellFormed : Token V → Bool
  | .operand _ => true
  | .operator op => op.supported
  | .unset => false

/-- The ways in which the reference evaluation of a postfix expression fails. -/
inductive RefError where
  /-- An operator met fewer than two values. -/
  | underflow
  /-- The evaluation ended with a number of values other than one. -/
  | leftover
  /-- A token that is neither an operand nor a supported operator. -/
  | malformed
  deriving DecidableEq, Repr

/-- Reference postfix evaluation, following the spec's words, over an unbounded
list used as a stack (most recent value first): an operand is pushed, an
operator replaces the two most recent values `v2`, `v1` by `v1 op v2` and fails
when fewer than two values are there. A token outside the spec's token set (an
operator tag outside the closed set, an empty union) is an error. -/
def refRun [Add V] [Sub V] [Mul V] [Div V] : List V → List (Token V) → Except RefError (List V)
  | stk, [] => .ok stk
  | stk, .operand v :: ts => refRun (v :: stk) ts
  | v2 :: v1 :: stk, .operator op :: ts =>
    match op.apply v1 v2 with
    | some w => refRun (w :: stk) ts
    | none => .error .malformed
  | _, .operator _ :: _ => .error .underflow
  | _, .unset :: _ => .error .malformed

/-- Reference result of a postfix expression: the one value left at the end. -/
def refEval [Add V] [Sub V] [Mul V] [Div V] (tokens : List (Token V)) : Except RefError V :=
  match refRun [] tokens with
  | .ok [v] => .ok v
  | .ok _ => .error .leftover
  | .error e => .error e

/-- The count of an evaluator that the service has been driving from a fresh
one lies within `[0, stackSize - 1]`. -/
def rpnEvaluator.inRange (r : rpnEvaluator V) : Prop :=
  0 ≤ r.ptr ∧ r.ptr ≤ (stackSize : Int) - 1

end Reference

/-! ## Concrete inputs (values in `ℚ`) -/

section Inputs

/-- An evaluator holding the operands 10 and 2, as in the cases "subtract" and
"divide" of `TestRPNEvaluator/resultCalculation`. -/
def tenTwo : rpnEvaluator ℚ :=
  { stack := fun i => if i.val = 0 then 10 else if i.val = 1 then 2 else 0, ptr := 2 }

/-- Scenario A of the spec: `5 8 + 3 - 2 / 5 *`. -/
def scenarioA : List (Token ℚ) :=
  [.operand 5, .operand 8, .operator .ADD, .operand 3, .operator .SUBTRACT,
   .operand 2, .operator .DIVIDE, .operand 5, .operator .MULTIPLY]

/-- The case "multiply_subract_add" of `TestRPNEvaluator/resultCalculation`:
operands 10 2 5 9, then ADD SUBTRACT MULTIPLY. -/
def multiplySubtractAdd : List (Token ℚ) :=
  [.operand 10, .operand 2, .operand 5, .operand 9,
   .operator .ADD, .operator .SUBTRACT, .operator .MULTIPLY]

/-- Fifteen operands, as pushed by the loop of `TestRPNEvaluator/pushOperand`. -/
def fifteen : List (Token ℚ) := List.replicate 15 (.operand 24)

/-- The evaluator after these fifteen pushes. -/
def afterFifteen : rpnEvaluator ℚ :=
  { stack := fun i => if i.val < 15 then 24 else 0, ptr := 15 }

end Inputs

/-! ## Sequences of method calls on one evaluator -/

section Calls

/-- One call of a method of `*rpnEvaluator`. -/
inductive Call (V : Type) where
  | pushOperand (v : V)
  | pushOperator (op : Operator)
  | result

variable {V : Type} [Zero V] [Add V] [Sub V] [Mul V] [Div V]

/-- The evaluator after one call, whatever the call returned; a panic if the
call panics. -/
def Call.exec (r : rpnEvaluator V) : Call V → Exec (rpnEvaluator V)
  | .pushOperand v =>
    match r.pushOperand v with
    | .panic => .panic
    | .ret (_, r1) => .ret r1
  | .pushOperator op =>
    match r.pushOperator op with
    | .panic => .panic
    | .ret (_, r1) => .ret r1
  | .result =>
    match r.result with
    | .panic => .panic
    | .ret (_, r1) => .ret r1

/-- The evaluator after a sequence of calls, successful or failing, made one
after the other on the same instance. -/
def runCalls (r : rpnEvaluator V) : List (Call V) → Exec (rpnEvaluator V)
  | [] => .ret r
  | c :: cs =>
    match Call.exec r c with
    | .panic => .panic
    | .ret r1 => runCalls r1 cs

end Calls

section MoreInputs

/-- An evaluator holding the single value 5. -/
def oneValue : rpnEvaluator ℚ :=
  { stack := fun i => if i.val = 0 then 5 else 0, ptr := 1 }

end MoreInputs

section MoreInputs2

/-- Fifteen `pushOperand(24)` calls, the loop of `TestRPNEvaluator/pushOperand`. -/
def fifteenCalls : List (Call ℚ) := List.replicate 15 (.pushOperand 24)

end MoreInputs2

/-! ## client.go -/

section ClientDefs

/-- The Go standard library predicate `unicode.IsSpace`, by code point: tab,
line feed, vertical tab, form feed, carriage return, space, U+0085, U+00A0, and
the characters of category Z with the property White_Space. -/
def isSpace (c : Char) : Bool :=
  let n := c.toNat
  (9 ≤ n && n ≤ 13) || n == 32 || n == 0x85 || n == 0xA0 || n == 0x1680 ||
  (0x2000 ≤ n && n ≤ 0x200A) || n == 0x2028 || n == 0x2029 || n == 0x202F ||
  n == 0x205F || n == 0x3000

/-- The Go standard library function `strings.TrimSpace`: the string without its
leading and its trailing white space. -/
def TrimSpace (s : String) : String :=
  ⟨(s.data.dropWhile isSpace).rdropWhile isSpace⟩

variable {V : Type}

/-- Source: `func parseToken(tokenStr string) (*v1pb.Token, error)`. The
standard library function `strconv.ParseFloat(s, 64)` is the argument
`parseFloat`; it returns the value or the text of its error. -/
def parseToken (parseFloat : String → Except String V) (tokenStr : String) :
    Except String (Token V) :=
  let tokStr := TrimSpace tokenStr
  if tokStr = "+" then .ok (.operator .ADD)
  else if tokStr = "-" then .ok (.operator .SUBTRACT)
  else if tokStr = "*" then .ok (.operator .MULTIPLY)
  else if tokStr = "/" then .ok (.operator .DIVIDE)
  else
    match parseFloat tokStr with
    | .error err => .error err
    | .ok v => .ok (.operand v)

/-- The errors that the methods of `Client` return: the error of `parseToken`,
or an error of a call on the generated stub. -/
inductive ClientError where
  | parse (msg : String)
  | rpc (e : RpcError)
  deriving DecidableEq, Repr

/-- A call made on the generated stub `v1pb.CalculatorClient` or on the stream
it opened. -/
inductive NetCall (V : Type) where
  /-- The call `c.client.EvaluateStream(ctx)` that opens the stream. -/
  | openStream
  /-- The call `stream.Send` with one token. -/
  | send (tok : Token V)
  /-- The call `stream.CloseAndRecv()`. -/
  | closeAndRecv
  /-- The call `c.client.EvaluateBatch(ctx, req)` with the whole list. -/
  | batch (tokens : List (Token V))
  deriving DecidableEq, Repr

/-- How the generated stub answers: the error of opening a stream, the error of
a `Send` (given the tokens sent before it), the answer of `CloseAndRecv` (given
all tokens sent), and the answer of the batch call. -/
structure Stub (V : Type) where
  openStream : Option RpcError
  send : List (Token V) → Token V → Option RpcError
  closeAndRecv : List (Token V) → Except RpcError V
  batch : List (Token V) → Except RpcError V

/-- What one call of a method of `Client` did: the value and the error it
returned, and the calls it made on the stub, in order. -/
structure ClientOutcome (V : Type) where
  value : V
  err : Option ClientError
  calls : List (NetCall V)

variable [Zero V]

/-- The loop `for tokenStr := range tokens` of `Client.EvaluateStream`, with
the tokens sent so far: the tokens passed to `Send` when the loop ends, and the
error that made the method return from inside the loop, if any. -/
def clientSendLoop (parseFloat : String → Except String V) (stub : Stub V)
    (sent : List (Token V)) : List String → List (Token V) × Option ClientError
  | [] => (sent, none)
  | tokenStr :: rest =>
    match parseToken parseFloat tokenStr with
    | .error err => (sent, some (.parse err))
    | .ok tok =>
      match stub.send sent tok with
      | some err => (sent ++ [tok], some (.rpc err))
      | none => clientSendLoop parseFloat stub (sent ++ [tok]) rest

/-- Source: `func (c *Client) EvaluateStream(tokens <-chan string) (float64, error)`;
the channel is the list of strings it delivers before it is closed. -/
def Client.EvaluateStream (parseFloat : String → Except String V) (stub : Stub V)
    (tokens : List String) : ClientOutcome V :=
  match stub.openStream with
  | some err => { value := 0, err := some (.rpc err), calls := [.openStream] }
  | none =>
    match clientSendLoop parseFloat stub [] tokens with
    | (sent, some err) =>
      { value := 0, err := some err, calls := .openStream :: sent.map .send }
    | (sent, none) =>
      match stub.closeAndRecv sent with
      | .error err =>
        { value := 0, err := some (.rpc err),
          calls := .openStream :: sent.map .send ++ [.closeAndRecv] }
      | .ok res =>
        { value := res, err := none,
          calls := .openStream :: sent.map .send ++ [.closeAndRecv] }

/-- The loop of `Client.EvaluateBatch` that fills the slice `tokens`: the parsed
tokens, or the first error of `parseToken`. -/
def clientParseAll (parseFloat : String → Except String V) :
    List String → Except String (List (Token V))
  | [] => .ok []
  | tokStr :: rest =>
    match parseToken parseFloat tokStr with
    | .error err => .error err
    | .ok tok =>
      match clientParseAll parseFloat rest with
      | .error err => .error err
      | .ok toks => .ok (tok :: toks)

/-- Source: `func (c *Client) EvaluateBatch(ctx, tokenStrs []string) (float64, error)`. -/
def Client.EvaluateBatch (parseFloat : String → Except String V) (stub : Stub V)
    (tokenStrs : List String) : ClientOutcome V :=
  match clientParseAll parseFloat tokenStrs with
  | .error err => { value := 0, err := some (.parse err), calls := [] }
  | .ok tokens =>
    match stub.batch tokens with
    | .error err => { value := 0, err := some (.rpc err), calls := [.batch tokens] }
    | .ok res => { value := res, err := none, calls := [.batch tokens] }

end ClientDefs

section ClientInputs

/-- A stand-in for `strconv.ParseFloat(s, 64)`, used only to run the theorems
at concrete inputs. It is not that function: it knows unsigned decimal integers
only. On a non-empty string of decimal digits it returns the number they write,
as `strconv.ParseFloat` does whenever that number is below `2 ^ 53`. On every
other string it returns the text of the error that `strconv.ParseFloat` returns
for a string it cannot parse, `strconv.ParseFloat: parsing "s": invalid syntax`
(with `s` as it is, which is how `strconv.Quote` writes a string of plain
printable characters). So it agrees with `strconv.ParseFloat` on "3" and "5"
(the values 3 and 5) and on "a" (the same error text); it differs wherever
`strconv.ParseFloat` accepts more than digits: a sign, a fraction, an exponent,
a hexadecimal literal, `Inf`, `NaN`. -/
def decimalFloat (s : String) : Except String ℚ :=
  if s.data ≠ [] ∧ s.data.all Char.isDigit = true then
    .ok ((s.data.foldl (fun n c => 10 * n + (c.toNat - 48)) 0 : Nat) : ℚ)
  else .error ("strconv.ParseFloat: parsing \"" ++ s ++ "\": invalid syntax")

/-- A stub on which no call fails; the answers carry the number of tokens. -/
def quietStub : Stub ℚ :=
  { openStream := none
    send := fun _ _ => none
    closeAndRecv := fun sent => .ok sent.length
    batch := fun tokens => .ok tokens.length }

end ClientInputs

section DepthBounds

variable {V : Type}

/-- The token at position `k` breaks its depth bound, the depth being counted
from `d0`: an operand preceded by depth above `stackSize - 2` (14), or an
operator preceded by depth below 2. -/
def violatesAt (d0 : Int) (tokens : List (Token V)) (k : Nat) : Bool :=
  match tokens[k]? with
  | some (.operand _) => decide ((stackSize : Int) - 2 < d0 + depth (tokens.take k))
  | some (.operator _) => decide (d0 + depth (tokens.take k) < 2)
  | _ => false

/-- The code the claim assigns to a violation at position `k`: resource-exhausted
at an operand, invalid-argument at an operator. -/
def codeAt (tokens : List (Token V)) (k : Nat) : Code :=
  match tokens[k]? with
  | some (.operand _) => .ResourceExhausted
  | _ => .InvalidArgument

end DepthBounds

section DepthInputs

/-- Scenario C of the spec: the single token `+`. -/
def scenarioC : List (Token ℚ) := [.operator .ADD]

/-- Scenario D of the spec: `5 5 5 +`. -/
def scenarioD : List (Token ℚ) := [.operand 5, .operand 5, .operand 5, .operator .ADD]

end DepthInputs

/-! ## Tokens whose union is not set -/

section UnsetTokens

variable {V : Type}

/-- The union of the token is not set: neither case of the type switch in
service.go matches it. -/
def Token.isUnset : Token V → Bool
  | .unset => true
  | _ => false

/-- The token list without the tokens whose union is not set. -/
def dropUnset (tokens : List (Token V)) : List (Token V) :=
  tokens.filter fun t => !t.isUnset

end UnsetTokens

section UnsetInputs

/-- Scenario A of the spec with three tokens whose union is not set put in. -/
def scenarioAWithUnset : List (Token ℚ) :=
  [.unset, .operand 5, .operand 8, .unset, .operator .ADD, .operand 3, .operator .SUBTRACT,
   .operand 2, .operator .DIVIDE, .operand 5, .operator .MULTIPLY, .unset]

end UnsetInputs

/-! ## Lists read off a fixed-size array -/

section ArrayLemmas

variable {V : Type}

theorem take_ofFn_update_succ {n : Nat} (f : Fin n → V) (i : Fin n) (v : V) :
    (List.ofFn (Function.update f i v)).take (i.val + 1) = (List.ofFn f).take i.val ++ [v] := by
  have hi := i.isLt
  apply List.ext_getElem
  · simp; omega
  · intro k h1 h2
    simp only [List.length_take, List.length_ofFn] at h1
    by_cases hk : k = i.val
    · subst hk
      simp [List.getElem_take, List.getElem_append_right]
    · have hlt : k < i.val := by omega
      have hne : (⟨k, by omega⟩ : Fin n) ≠ i := by
        intro h; apply hk; rw [← h]
      simp [List.getElem_take, List.getElem_append_left, hlt, Function.update_noteq hne]

theorem take_ofFn_update_le {n : Nat} (f : Fin n → V) (i : Fin n) (v : V) (k : Nat)
    (hk : k ≤ i.val) :
    (List.ofFn (Function.update f i v)).take k = (List.ofFn f).take k := by
  have hi := i.isLt
  apply List.ext_getElem
  · simp
  · intro j h1 h2
    simp only [List.length_take, List.length_ofFn] at h1
    have hne : (⟨j, by omega⟩ : Fin n) ≠ i := by
      intro h; have := congrArg Fin.val h; simp at this; omega
    simp [List.getElem_take, Function.update_noteq hne]

theorem take_ofFn_succ {n : Nat} (f : Fin n → V) (k : Nat) (hk : k < n) :
    (List.ofFn f).take (k + 1) = (List.ofFn f).take k ++ [f ⟨k, hk⟩] := by
  rw [List.take_succ]
  simp [List.getElem?_ofFn, hk]

end ArrayLemmas

/-! ## The evaluator, one call at a time -/

section EvaluatorLemmas

variable {V : Type}

theorem stackGet_of_index (r : rpnEvaluator V) (p : Int) (i : Fin stackSize)
    (hi : (i.val : Int) = p) : r.stackGet p = .ret (r.stack i) := by
  unfold rpnEvaluator.stackGet
  have hlt := i.isLt
  have h : 0 ≤ p ∧ p < (stackSize : Int) := by omega
  have hfin : ∀ hh, (⟨p.toNat, hh⟩ : Fin stackSize) = i := fun hh => Fin.ext (by simp; omega)
  rw [dif_pos h, hfin]

theorem stackGet_of_not_index (r : rpnEvaluator V) (p : Int)
    (h : p < 0 ∨ (stackSize : Int) ≤ p) : r.stackGet p = .panic := by
  unfold rpnEvaluator.stackGet
  rw [dif_neg (by omega)]

theorem stackSet_of_index (r : rpnEvaluator V) (p : Int) (v : V) (i : Fin stackSize)
    (hi : (i.val : Int) = p) :
    r.stackSet p v = .ret { r with stack := Function.update r.stack i v } := by
  unfold rpnEvaluator.stackSet
  have hlt := i.isLt
  have h : 0 ≤ p ∧ p < (stackSize : Int) := by omega
  have hfin : ∀ hh, (⟨p.toNat, hh⟩ : Fin stackSize) = i := fun hh => Fin.ext (by simp; omega)
  rw [dif_pos h, hfin]

theorem stackSet_of_not_index (r : rpnEvaluator V) (p : Int) (v : V)
    (h : p < 0 ∨ (stackSize : Int) ≤ p) : r.stackSet p v = .panic := by
  unfold rpnEvaluator.stackSet
  rw [dif_neg (by omega)]

theorem pushOperand_of_ge (r : rpnEvaluator V) (v : V) (h : (stackSize : Int) - 1 ≤ r.ptr) :
    r.pushOperand v = .ret (some .StackFull, r) := by
  unfold rpnEvaluator.pushOperand
  rw [if_pos h]

theorem pushOperand_of_neg (r : rpnEvaluator V) (v : V) (h : r.ptr < 0) :
    r.pushOperand v = .panic := by
  unfold rpnEvaluator.pushOperand
  have h1 : ¬ (r.ptr ≥ (stackSize : Int) - 1) := by simp [stackSize]; omega
  rw [if_neg h1, stackSet_of_not_index r r.ptr v (Or.inl h)]

theorem pushOperand_of_lt (r : rpnEvaluator V) (v : V) (i : Fin stackSize)
    (hi : (i.val : Int) = r.ptr) (h : r.ptr < (stackSize : Int) - 1) :
    r.pushOperand v = .ret (none, { stack := Function.update r.stack i v, ptr := r.ptr + 1 }) := by
  unfold rpnEvaluator.pushOperand
  have h1 : ¬ (r.ptr ≥ (stackSize : Int) - 1) := by omega
  rw [if_neg h1, stackSet_of_index r r.ptr v i hi]

theorem pop_of_index (r : rpnEvaluator V) (i : Fin stackSize) (hi : (i.val : Int) = r.ptr - 1) :
    r.pop = .ret (r.stack i, { r with ptr := r.ptr - 1 }) := by
  unfold rpnEvaluator.pop
  simp only
  rw [stackGet_of_index _ (r.ptr - 1) i hi]

theorem pop_of_not_bounds (r : rpnEvaluator V) (h : r.ptr < 1 ∨ (stackSize : Int) < r.ptr) :
    r.pop = .panic := by
  unfold rpnEvaluator.pop
  simp only
  rw [stackGet_of_not_index _ (r.ptr - 1) (by omega)]

theorem resident_push (r : rpnEvaluator V) (v : V) (i : Fin stackSize)
    (hi : (i.val : Int) = r.ptr) :
    rpnEvaluator.resident { stack := Function.update r.stack i v, ptr := r.ptr + 1 }
      = r.resident ++ [v] := by
  unfold rpnEvaluator.resident
  have e : (r.ptr + 1).toNat = i.val + 1 := by omega
  have e0 : r.ptr.toNat = i.val := by omega
  simp only [e, e0]
  exact take_ofFn_update_succ r.stack i v

theorem resident_length (r : rpnEvaluator V) (h0 : 0 ≤ r.ptr) (h : r.ptr ≤ (stackSize : Int)) :
    (r.resident.length : Int) = r.ptr := by
  unfold rpnEvaluator.resident
  simp only [List.length_take, List.length_ofFn]
  omega

/-- An index into the array for every position in `[0, stackSize)`. -/
theorem exists_index (p : Int) (h0 : 0 ≤ p) (h : p < (stackSize : Int)) :
    ∃ i : Fin stackSize, (i.val : Int) = p :=
  ⟨⟨p.toNat, by omega⟩, by simp only [Int.toNat_of_nonneg h0]⟩

end EvaluatorLemmas

section OperatorLemmas

variable {V : Type}

/-- What `pushOperator` does on a state with `2 ≤ ptr ≤ stackSize`, in one
equation: both pops succeed, and either the computed value is written to slot
`ptr - 2`, or the operator has no case and only the two pops remain. -/
theorem pushOperator_of_index [Add V] [Sub V] [Mul V] [Div V]
    (r : rpnEvaluator V) (op : Operator) (i j : Fin stackSize)
    (hi : (i.val : Int) = r.ptr - 2) (hj : (j.val : Int) = r.ptr - 1) :
    r.pushOperator op =
      match op.apply (r.stack i) (r.stack j) with
      | some w => .ret (none, { stack := Function.update r.stack i w, ptr := r.ptr - 1 })
      | none => .ret (some (.UnsupportedOperator op), { r with ptr := r.ptr - 2 }) := by
  have hs : (stackSize : Int) = 16 := rfl
  have hilt := i.isLt
  have hjlt := j.isLt
  have e1 : r.ptr - 1 - 1 = r.ptr - 2 := by omega
  have e2 : r.ptr - 2 + 1 = r.ptr - 1 := by omega
  unfold rpnEvaluator.pushOperator
  rw [if_neg (by omega), pop_of_index r j hj]
  simp only
  rw [pop_of_index _ i (by simp only; omega)]
  have hpush : ∀ w : V, rpnEvaluator.pushOperand { r with ptr := r.ptr - 2 } w
      = .ret (none, { stack := Function.update r.stack i w, ptr := r.ptr - 1 }) := by
    intro w
    rw [pushOperand_of_lt _ w i (by simp only; omega) (by simp only; omega)]
    simp only [e2]
  simp only [e1]
  cases op <;> simp only [Operator.apply, hpush]

theorem resident_top_two (r : rpnEvaluator V) (i j : Fin stackSize)
    (hi : (i.val : Int) = r.ptr - 2) (hj : (j.val : Int) = r.ptr - 1) :
    r.resident = (List.ofFn r.stack).take i.val ++ [r.stack i, r.stack j] := by
  have hjlt := j.isLt
  unfold rpnEvaluator.resident
  have e1 : r.ptr.toNat = i.val + 1 + 1 := by omega
  have hb : i.val + 1 < stackSize := by omega
  have e2 : j = ⟨i.val + 1, hb⟩ := Fin.ext (by simp only; omega)
  subst e2
  rw [e1, take_ofFn_succ r.stack (i.val + 1) (by omega),
    take_ofFn_succ r.stack i.val (by omega)]
  simp only [List.append_assoc, List.singleton_append, Fin.eta]

theorem resident_replace_top_two (r : rpnEvaluator V) (w : V) (i : Fin stackSize)
    (hi : (i.val : Int) = r.ptr - 2) :
    rpnEvaluator.resident { stack := Function.update r.stack i w, ptr := r.ptr - 1 }
      = (List.ofFn r.stack).take i.val ++ [w] := by
  unfold rpnEvaluator.resident
  have e : (r.ptr - 1).toNat = i.val + 1 := by omega
  simp only [e]
  exact take_ofFn_update_succ r.stack i w

theorem pushOperator_of_lt_two [Add V] [Sub V] [Mul V] [Div V]
    (r : rpnEvaluator V) (op : Operator) (h : r.ptr < 2) :
    r.pushOperator op = .ret (some .InsufficientOperands, r) := by
  unfold rpnEvaluator.pushOperator
  rw [if_pos h]

theorem result_of_one [Zero V] (r : rpnEvaluator V) (h : r.ptr = 1) :
    r.result = .ret ((r.stack ⟨0, by decide⟩, none), { r with ptr := 0 }) := by
  unfold rpnEvaluator.result
  rw [if_neg (by simp [h]), pop_of_index r ⟨0, by decide⟩ (by simp [h])]
  simp only [h]
  rfl

theorem result_of_ne_one [Zero V] (r : rpnEvaluator V) (h : r.ptr ≠ 1) :
    r.result = .ret ((0, some .IncompleteExpression), r) := by
  unfold rpnEvaluator.result
  rw [if_pos h]

theorem resident_of_one (r : rpnEvaluator V) (h : r.ptr = 1) :
    r.resident = [r.stack ⟨0, by decide⟩] := by
  unfold rpnEvaluator.resident
  rw [h]
  have e : (1 : Int).toNat = 0 + 1 := rfl
  rw [e, take_ofFn_succ r.stack 0 (by decide)]
  simp

/-- A resident sequence that ends in `v1`, `v2` pins down the two top slots. -/
theorem resident_split (r : rpnEvaluator V) (xs : List V) (v1 v2 : V)
    (hcap : r.ptr ≤ (stackSize : Int)) (hres : r.resident = xs ++ [v1, v2]) :
    ∃ i j : Fin stackSize, (i.val : Int) = r.ptr - 2 ∧ (j.val : Int) = r.ptr - 1 ∧
      r.stack i = v1 ∧ r.stack j = v2 ∧ (List.ofFn r.stack).take i.val = xs := by
  have hs : (stackSize : Int) = 16 := rfl
  have hlen : r.resident.length = xs.length + 2 := by rw [hres]; simp
  have h2 : 2 ≤ r.ptr := by
    unfold rpnEvaluator.resident at hlen
    simp only [List.length_take, List.length_ofFn] at hlen
    omega
  obtain ⟨i, hi⟩ := exists_index (r.ptr - 2) (by omega) (by omega)
  obtain ⟨j, hj⟩ := exists_index (r.ptr - 1) (by omega) (by omega)
  have htop := resident_top_two r i j hi hj
  rw [hres] at htop
  have hxs : xs ++ [v1, v2] = (xs ++ [v1]) ++ [v2] := by simp
  have htk : (List.ofFn r.stack).take i.val ++ [r.stack i, r.stack j]
      = ((List.ofFn r.stack).take i.val ++ [r.stack i]) ++ [r.stack j] := by simp
  rw [hxs, htk] at htop
  have hv2 : v2 = r.stack j := List.append_inj_right' htop rfl |> List.singleton_inj.mp
  have htop1 := List.append_inj_left' htop rfl
  have hv1 : v1 = r.stack i := List.append_inj_right' htop1 rfl |> List.singleton_inj.mp
  have hx : xs = (List.ofFn r.stack).take i.val := List.append_inj_left' htop1 rfl
  exact ⟨i, j, hi, hj, hv1.symm, hv2.symm, hx.symm⟩

theorem pushOperator_of_resident [Add V] [Sub V] [Mul V] [Div V]
    (r : rpnEvaluator V) (op : Operator) (xs : List V) (v1 v2 w : V)
    (hcap : r.ptr ≤ (stackSize : Int)) (hres : r.resident = xs ++ [v1, v2])
    (hw : op.apply v1 v2 = some w) :
    ∃ r', r.pushOperator op = .ret (none, r') ∧ r'.resident = xs ++ [w] ∧
      r'.ptr = r.ptr - 1 := by
  obtain ⟨i, j, hi, hj, h1, h2, hx⟩ := resident_split r xs v1 v2 hcap hres
  have hpo := pushOperator_of_index r op i j hi hj
  rw [h1, h2, hw] at hpo
  exact ⟨_, hpo, by rw [resident_replace_top_two r w i hi, hx], rfl⟩

theorem apply_of_supported [Add V] [Sub V] [Mul V] [Div V] (op : Operator) (v1 v2 : V)
    (hop : op.supported = true) : ∃ w, op.apply v1 v2 = some w := by
  cases op with
  | UNRECOGNIZED tag => simp [Operator.supported] at hop
  | ADD => exact ⟨_, rfl⟩
  | SUBTRACT => exact ⟨_, rfl⟩
  | MULTIPLY => exact ⟨_, rfl⟩
  | DIVIDE => exact ⟨_, rfl⟩

end OperatorLemmas

/-! ## Runs of the service -/

section Runs

variable {V : Type} [Zero V] [Add V] [Sub V] [Mul V] [Div V]

omit [Add V] [Sub V] [Mul V] [Div V] in
theorem fresh_inRange : (rpnEvaluator.fresh : rpnEvaluator V).inRange := by
  simp [rpnEvaluator.inRange, rpnEvaluator.fresh, stackSize]

omit [Zero V] [Add V] [Sub V] [Mul V] [Div V] in
theorem pushOperand_inRange (r : rpnEvaluator V) (v : V) (h : r.inRange) :
    (r.pushOperand v = .ret (some .StackFull, r) ∧ r.ptr = (stackSize : Int) - 1) ∨
    (∃ r', r.pushOperand v = .ret (none, r') ∧ r'.inRange ∧ r'.ptr = r.ptr + 1 ∧
      r'.resident = r.resident ++ [v]) := by
  have hs : (stackSize : Int) = 16 := rfl
  obtain ⟨h0, h15⟩ := h
  rcases lt_or_le r.ptr ((stackSize : Int) - 1) with hlt | hge
  · right
    obtain ⟨i, hi⟩ := exists_index r.ptr h0 (by omega)
    refine ⟨_, pushOperand_of_lt r v i hi hlt, ⟨?_, ?_⟩, rfl, resident_push r v i hi⟩
    · simp only; omega
    · simp only; omega
  · left
    exact ⟨pushOperand_of_ge r v hge, by omega⟩

omit [Zero V] in
theorem pushOperator_inRange (r : rpnEvaluator V) (op : Operator) (h : r.inRange) :
    (r.ptr < 2 ∧ r.pushOperator op = .ret (some .InsufficientOperands, r)) ∨
    (2 ≤ r.ptr ∧ op.supported = false ∧
      r.pushOperator op = .ret (some (.UnsupportedOperator op), { r with ptr := r.ptr - 2 })) ∨
    (2 ≤ r.ptr ∧ op.supported = true ∧
      ∃ r', r.pushOperator op = .ret (none, r') ∧ r'.inRange ∧ r'.ptr = r.ptr - 1) := by
  have hs : (stackSize : Int) = 16 := rfl
  obtain ⟨h0, h15⟩ := h
  rcases lt_or_le r.ptr 2 with hlt | hge
  · left
    exact ⟨hlt, pushOperator_of_lt_two r op hlt⟩
  · right
    obtain ⟨i, hi⟩ := exists_index (r.ptr - 2) (by omega) (by omega)
    obtain ⟨j, hj⟩ := exists_index (r.ptr - 1) (by omega) (by omega)
    have hpo := pushOperator_of_index r op i j hi hj
    cases op with
    | UNRECOGNIZED tag => left; exact ⟨hge, rfl, hpo⟩
    | ADD => right; exact ⟨hge, rfl, _, hpo, ⟨by simp only; omega, by simp only; omega⟩, rfl⟩
    | SUBTRACT => right; exact ⟨hge, rfl, _, hpo, ⟨by simp only; omega, by simp only; omega⟩, rfl⟩
    | MULTIPLY => right; exact ⟨hge, rfl, _, hpo, ⟨by simp only; omega, by simp only; omega⟩, rfl⟩
    | DIVIDE => right; exact ⟨hge, rfl, _, hpo, ⟨by simp only; omega, by simp only; omega⟩, rfl⟩


omit [Zero V] in
theorem batchLoop_inRange (tokens : List (Token V)) :
    ∀ r : rpnEvaluator V, r.inRange →
      (∃ e, batchLoop r tokens = .ret (.error e)) ∨
      (∃ r', batchLoop r tokens = .ret (.ok r') ∧ r'.inRange) := by
  induction tokens with
  | nil => intro r h; exact Or.inr ⟨r, rfl, h⟩
  | cons t ts ih =>
    intro r h
    cases t with
    | operand v =>
      rcases pushOperand_inRange r v h with ⟨hp, _⟩ | ⟨r', hp, hr', _, _⟩
      · left; simp only [batchLoop, hp]; exact ⟨_, rfl⟩
      · simp only [batchLoop, hp]; exact ih r' hr'
    | operator op =>
      rcases pushOperator_inRange r op h with ⟨_, hp⟩ | ⟨_, _, hp⟩ | ⟨_, _, r', hp, hr', _⟩
      · left; simp only [batchLoop, hp]; exact ⟨_, rfl⟩
      · left; simp only [batchLoop, hp]; exact ⟨_, rfl⟩
      · simp only [batchLoop, hp]; exact ih r' hr'
    | unset => simp only [batchLoop]; exact ih r h

omit [Zero V] in
theorem batchLoop_append (p q : List (Token V)) :
    ∀ r r' : rpnEvaluator V, batchLoop r p = .ret (.ok r') →
      batchLoop r (p ++ q) = batchLoop r' q := by
  induction p with
  | nil => intro r r' h; simp only [batchLoop] at h; cases h; rfl
  | cons t ts ih =>
    intro r r' h
    cases t with
    | operand v =>
      simp only [batchLoop, List.cons_append] at h ⊢
      cases hp : r.pushOperand v with
      | panic => rw [hp] at h; cases h
      | ret x =>
        obtain ⟨e, r1⟩ := x
        cases e with
        | some e => rw [hp] at h; cases h
        | none => rw [hp] at h; exact ih r1 r' h
    | operator op =>
      simp only [batchLoop, List.cons_append] at h ⊢
      cases hp : r.pushOperator op with
      | panic => rw [hp] at h; cases h
      | ret x =>
        obtain ⟨e, r1⟩ := x
        cases e with
        | some e => rw [hp] at h; cases h
        | none => rw [hp] at h; exact ih r1 r' h
    | unset =>
      simp only [batchLoop, List.cons_append] at h ⊢
      exact ih r r' h

omit [Zero V] in
theorem batchLoop_append_error (p q : List (Token V)) :
    ∀ (r : rpnEvaluator V) (e : RpcError), batchLoop r p = .ret (.error e) →
      batchLoop r (p ++ q) = .ret (.error e) := by
  induction p with
  | nil => intro r e h; simp only [batchLoop] at h; cases h
  | cons t ts ih =>
    intro r e h
    cases t with
    | operand v =>
      simp only [batchLoop, List.cons_append] at h ⊢
      cases hp : r.pushOperand v with
      | panic => rw [hp] at h; cases h
      | ret x =>
        obtain ⟨e1, r1⟩ := x
        cases e1 with
        | some e1 => rw [hp] at h; exact h
        | none => rw [hp] at h; exact ih r1 e h
    | operator op =>
      simp only [batchLoop, List.cons_append] at h ⊢
      cases hp : r.pushOperator op with
      | panic => rw [hp] at h; cases h
      | ret x =>
        obtain ⟨e1, r1⟩ := x
        cases e1 with
        | some e1 => rw [hp] at h; exact h
        | none => rw [hp] at h; exact ih r1 e h
    | unset =>
      simp only [batchLoop, List.cons_append] at h ⊢
      exact ih r e h

/-- The stream loop on the requests that carry `p ++ q` passes over `p` exactly
as the batch loop does when that one runs to its end. -/
theorem streamLoop_append (c : RecvEnd) (se : Option String) (p q : List (Token V)) :
    ∀ r r' : rpnEvaluator V, batchLoop r p = .ret (.ok r') →
      streamLoop c se r ((p ++ q).map fun t => ⟨some t⟩)
        = streamLoop c se r' (q.map fun t => ⟨some t⟩) := by
  induction p with
  | nil => intro r r' h; simp only [batchLoop] at h; cases h; rfl
  | cons t ts ih =>
    intro r r' h
    cases t with
    | operand v =>
      simp only [batchLoop, streamLoop, List.cons_append, List.map_cons] at h ⊢
      cases hp : r.pushOperand v with
      | panic => rw [hp] at h; cases h
      | ret x =>
        obtain ⟨e, r1⟩ := x
        cases e with
        | some e => rw [hp] at h; cases h
        | none => rw [hp] at h; exact ih r1 r' h
    | operator op =>
      simp only [batchLoop, streamLoop, List.cons_append, List.map_cons] at h ⊢
      cases hp : r.pushOperator op with
      | panic => rw [hp] at h; cases h
      | ret x =>
        obtain ⟨e, r1⟩ := x
        cases e with
        | some e => rw [hp] at h; cases h
        | none => rw [hp] at h; exact ih r1 r' h
    | unset =>
      simp only [batchLoop, streamLoop, List.cons_append, List.map_cons] at h ⊢
      exact ih r r' h

/-- When the batch loop returns an error from state `r`, the stream loop
returns the same error and sends nothing. -/
theorem streamLoop_of_batch_error (c : RecvEnd) (se : Option String) (p : List (Token V)) :
    ∀ (r : rpnEvaluator V) (e : RpcError), batchLoop r p = .ret (.error e) →
      ∃ out, streamLoop c se r (p.map fun t => ⟨some t⟩) = .ret out ∧
        out.err = some e ∧ out.sent = [] := by
  induction p with
  | nil => intro r e h; simp only [batchLoop] at h; cases h
  | cons t ts ih =>
    intro r e h
    cases t with
    | operand v =>
      simp only [batchLoop, streamLoop, List.map_cons] at h ⊢
      cases hp : r.pushOperand v with
      | panic => rw [hp] at h; cases h
      | ret x =>
        obtain ⟨e1, r1⟩ := x
        cases e1 with
        | some e1 => rw [hp] at h; cases h; exact ⟨_, rfl, rfl, rfl⟩
        | none => rw [hp] at h; exact ih r1 e h
    | operator op =>
      simp only [batchLoop, streamLoop, List.map_cons] at h ⊢
      cases hp : r.pushOperator op with
      | panic => rw [hp] at h; cases h
      | ret x =>
        obtain ⟨e1, r1⟩ := x
        cases e1 with
        | some e1 => rw [hp] at h; cases h; exact ⟨_, rfl, rfl, rfl⟩
        | none => rw [hp] at h; exact ih r1 e h
    | unset =>
      simp only [batchLoop, streamLoop, List.map_cons] at h ⊢
      exact ih r e h

end Runs

/-! ## The batch loop against the reference evaluator -/

section Refinement

variable {V : Type} [Add V] [Sub V] [Mul V] [Div V]

omit [Add V] [Sub V] [Mul V] [Div V] in
theorem depth_take_succ_operand (v : V) (ts : List (Token V)) (k : Nat) :
    depth ((Token.operand v :: ts).take (k + 1)) = depth (ts.take k) + 1 := by
  simp only [List.take_succ_cons, depth]

omit [Add V] [Sub V] [Mul V] [Div V] in
theorem depth_take_succ_operator (op : Operator) (ts : List (Token V)) (k : Nat) :
    depth ((Token.operator op :: ts : List (Token V)).take (k + 1)) = depth (ts.take k) - 1 := by
  simp only [List.take_succ_cons, depth]

theorem batchLoop_refines (tokens : List (Token V)) :
    ∀ (r : rpnEvaluator V) (stk : List V), r.inRange → r.resident = stk.reverse →
      (∀ t ∈ tokens, t.wellFormed = true) →
      (∀ k ≤ tokens.length, r.ptr + depth (tokens.take k) ≤ (stackSize : Int) - 1) →
      match refRun stk tokens with
      | .ok stk' => ∃ r', batchLoop r tokens = .ret (.ok r') ∧ r'.resident = stk'.reverse ∧
          r'.inRange
      | .error .underflow => batchLoop r tokens =
          .ret (.error (grpcErrorf .InvalidArgument EvalError.InsufficientOperands.Error))
      | .error _ => False := by
  have hs : (stackSize : Int) = 16 := rfl
  induction tokens with
  | nil =>
    intro r stk hr hres _ _
    simp only [refRun]
    exact ⟨r, rfl, hres, hr⟩
  | cons t ts ih =>
    intro r stk hr hres hwf hd
    have hlen : (stk.length : Int) = r.ptr := by
      have := resident_length r hr.1 (by have := hr.2; omega)
      rw [hres, List.length_reverse] at this
      exact this
    cases t with
    | operand v =>
      have h1 := hd 1 (by simp)
      rw [depth_take_succ_operand v ts 0] at h1
      simp only [List.take_zero, depth] at h1
      rcases pushOperand_inRange r v hr with ⟨_, hfull⟩ | ⟨r', hp, hr', hptr, hres'⟩
      · omega
      · have hrec := ih r' (v :: stk) hr' (by rw [hres', hres, List.reverse_cons])
          (fun t ht => hwf t (List.mem_cons_of_mem _ ht))
          (fun k hk => by
            have := hd (k + 1) (by simp only [List.length_cons]; omega)
            rw [depth_take_succ_operand] at this
            omega)
        simp only [refRun, batchLoop, hp]
        exact hrec
    | operator op =>
      have hop : op.supported = true := by
        have := hwf (.operator op) (List.mem_cons_self _ _)
        simpa [Token.wellFormed] using this
      match stk, hres, hlen with
      | [], _, hlen =>
        have hp := pushOperator_of_lt_two r op (by simp at hlen; omega)
        simp only [refRun, batchLoop, hp]
      | [x], _, hlen =>
        have hp := pushOperator_of_lt_two r op (by simp at hlen; omega)
        simp only [refRun, batchLoop, hp]
      | v2 :: v1 :: rest, hres, hlen =>
        obtain ⟨w, hw⟩ := apply_of_supported op v1 v2 hop
        obtain ⟨r', hp, hres', hptr⟩ := pushOperator_of_resident r op rest.reverse v1 v2 w
          (by have := hr.2; omega) (by rw [hres]; simp) hw
        have hr' : r'.inRange := by
          simp only [List.length_cons] at hlen
          constructor
          · omega
          · have := hr.2; omega
        have hrec := ih r' (w :: rest) hr' (by rw [hres', List.reverse_cons])
          (fun t ht => hwf t (List.mem_cons_of_mem _ ht))
          (fun k hk => by
            have := hd (k + 1) (by simp only [List.length_cons]; omega)
            rw [depth_take_succ_operator] at this
            omega)
        simp only [refRun, hw, batchLoop, hp]
        exact hrec
    | unset =>
      have := hwf .unset (List.mem_cons_self _ _)
      simp [Token.wellFormed] at this

end Refinement

/-! ## Contracts of the evaluator methods -/

section Contracts

variable {V : Type}

/-- C1: `pushOperand(v)` fails with the stack-full error exactly when the
occupied count is at least `stackSize - 1`; a successful call appends `v` on top
of the resident sequence, adds one to the count and changes no other slot; it
does succeed whenever the count is in `[0, stackSize - 1)`; and a failing call
leaves the evaluator as it was. -/
theorem C1_pushOperand_contract (r : rpnEvaluator V) (v : V) :
    ((∃ r', r.pushOperand v = .ret (some .StackFull, r')) ↔ (stackSize : Int) - 1 ≤ r.ptr) ∧
    (∀ r', r.pushOperand v = .ret (none, r') →
      r'.resident = r.resident ++ [v] ∧ r'.ptr = r.ptr + 1 ∧
      ∀ i : Fin stackSize, (i.val : Int) ≠ r.ptr → r'.stack i = r.stack i) ∧
    (0 ≤ r.ptr → r.ptr < (stackSize : Int) - 1 → ∃ r', r.pushOperand v = .ret (none, r')) ∧
    (∀ e r', r.pushOperand v = .ret (some e, r') → e = .StackFull ∧ r' = r) := by
  rcases le_or_lt ((stackSize : Int) - 1) r.ptr with hge | hlt
  · have hp := pushOperand_of_ge r v hge
    refine ⟨⟨fun _ => hge, fun _ => ⟨r, hp⟩⟩, ?_, ?_, ?_⟩
    · intro r' h; rw [hp] at h; cases h
    · intro _ h; omega
    · intro e r' h; rw [hp] at h; cases h; exact ⟨rfl, rfl⟩
  · rcases lt_or_le r.ptr 0 with hneg | h0
    · have hp := pushOperand_of_neg r v hneg
      refine ⟨⟨?_, fun h => absurd h (by omega)⟩, ?_, ?_, ?_⟩
      · rintro ⟨r', h⟩; rw [hp] at h; cases h
      · intro r' h; rw [hp] at h; cases h
      · intro h; omega
      · intro e r' h; rw [hp] at h; cases h
    · obtain ⟨i, hi⟩ := exists_index r.ptr h0 (by omega)
      have hp := pushOperand_of_lt r v i hi hlt
      refine ⟨⟨?_, fun h => absurd h (by omega)⟩, ?_, fun _ _ => ⟨_, hp⟩, ?_⟩
      · rintro ⟨r', h⟩; rw [hp] at h; cases h
      · intro r' h
        rw [hp] at h
        cases h
        refine ⟨resident_push r v i hi, rfl, ?_⟩
        intro j hj
        apply Function.update_noteq
        intro hEq
        apply hj
        rw [hEq, hi]
      · intro e r' h; rw [hp] at h; cases h


/-- C2: on a state whose count does not exceed the `stackSize` slots and whose
resident sequence ends with `v1` (pushed earlier) and `v2` (pushed later),
`pushOperator(op)` with a supported `op` succeeds, and leaves the resident
sequence with `v1`, `v2` replaced by the one value `v1 op v2`; the count drops
by exactly one. -/
theorem C2_pushOperator_contract [Add V] [Sub V] [Mul V] [Div V]
    (r : rpnEvaluator V) (op : Operator) (xs : List V) (v1 v2 : V)
    (hcap : r.ptr ≤ (stackSize : Int)) (hres : r.resident = xs ++ [v1, v2])
    (hop : op.supported = true) :
    ∃ w r', op.apply v1 v2 = some w ∧ r.pushOperator op = .ret (none, r') ∧
      r'.resident = xs ++ [w] ∧ r'.ptr = r.ptr - 1 := by
  obtain ⟨i, j, hi, hj, h1, h2, hx⟩ := resident_split r xs v1 v2 hcap hres
  have hpo := pushOperator_of_index r op i j hi hj
  rw [h1, h2] at hpo
  cases op with
  | UNRECOGNIZED tag => simp [Operator.supported] at hop
  | ADD =>
    exact ⟨v1 + v2, _, rfl, hpo, by rw [resident_replace_top_two r _ i hi, hx], rfl⟩
  | SUBTRACT =>
    exact ⟨v1 - v2, _, rfl, hpo, by rw [resident_replace_top_two r _ i hi, hx], rfl⟩
  | MULTIPLY =>
    exact ⟨v1 * v2, _, rfl, hpo, by rw [resident_replace_top_two r _ i hi, hx], rfl⟩
  | DIVIDE =>
    exact ⟨v1 / v2, _, rfl, hpo, by rw [resident_replace_top_two r _ i hi, hx], rfl⟩

/-- C3: `result()` succeeds exactly when the occupied count is 1, and then it
returns the single resident value, the bottom slot; for every other count it
fails with the incomplete-expression error. -/
theorem C3_result_contract [Zero V] (r : rpnEvaluator V) :
    ((∃ v r', r.result = .ret ((v, none), r')) ↔ r.ptr = 1) ∧
    (∀ v r', r.result = .ret ((v, none), r') →
      r.resident = [v] ∧ v = r.stack ⟨0, by decide⟩) ∧
    (r.ptr ≠ 1 → r.result = .ret ((0, some .IncompleteExpression), r)) := by
  have hone := result_of_one r
  have hne := result_of_ne_one r
  refine ⟨⟨?_, fun h => ⟨_, _, hone h⟩⟩, ?_, hne⟩
  · rintro ⟨v, r', h⟩
    by_contra hc
    rw [hne hc] at h
    cases h
  · intro v r' h
    by_cases hc : r.ptr = 1
    · rw [hone hc] at h
      cases h
      exact ⟨resident_of_one r hc, rfl⟩
    · rw [hne hc] at h
      cases h

/-- C4: with fewer than two resident values, `pushOperator` fails with the
not-enough-operands error for every operator, supported or not, and leaves the
count and the stored values as they were. -/
theorem C4_pushOperator_insufficient [Add V] [Sub V] [Mul V] [Div V]
    (r : rpnEvaluator V) (op : Operator) (h : r.ptr < 2) :
    r.pushOperator op = .ret (some .InsufficientOperands, r) := by
  unfold rpnEvaluator.pushOperator
  rw [if_pos h]

end Contracts

section PushOperands

variable {V : Type}

theorem pushOperands_of_count (vs : List V) :
    ∀ (r : rpnEvaluator V) (n : Nat), r.ptr = (n : Int) → n ≤ stackSize - 1 →
      ∃ r', pushOperands r vs = .ret
          (List.replicate (min vs.length (stackSize - 1 - n)) none ++
            List.replicate (vs.length - (stackSize - 1 - n)) (some .StackFull), r') ∧
        r'.resident = r.resident ++ vs.take (stackSize - 1 - n) := by
  have hs : stackSize = 16 := rfl
  induction vs with
  | nil => intro r n _ _; exact ⟨r, by simp [pushOperands], by simp⟩
  | cons v vs ih =>
    intro r n hn hle
    rcases Nat.lt_or_ge n (stackSize - 1) with hlt | hge
    · have hpush := pushOperand_of_lt r v ⟨n, by omega⟩ (by simp only; omega)
        (by rw [hn, hs]; push_cast; omega)
      obtain ⟨r', hrun, hres⟩ := ih
        { stack := Function.update r.stack ⟨n, by omega⟩ v, ptr := r.ptr + 1 } (n + 1)
        (by simp only [hn]; push_cast; rfl) (by omega)
      refine ⟨r', ?_, ?_⟩
      · simp only [pushOperands, hpush, hrun, List.length_cons]
        have e1 : min (vs.length + 1) (stackSize - 1 - n)
            = min vs.length (stackSize - 1 - (n + 1)) + 1 := by omega
        have e2 : vs.length + 1 - (stackSize - 1 - n)
            = vs.length - (stackSize - 1 - (n + 1)) := by omega
        rw [e1, e2, List.replicate_succ, List.cons_append]
      · rw [hres, resident_push r v ⟨n, by omega⟩ (by simp only; omega)]
        have e3 : stackSize - 1 - n = (stackSize - 1 - (n + 1)) + 1 := by omega
        rw [e3, List.take_succ_cons, List.append_assoc, List.singleton_append]
    · have hn' : n = stackSize - 1 := by omega
      have hpush := pushOperand_of_ge r v (by rw [hn, hn', hs]; decide)
      obtain ⟨r', hrun, hres⟩ := ih r n hn hle
      refine ⟨r', ?_, ?_⟩
      · simp only [pushOperands, hpush, hrun, List.length_cons]
        have e1 : stackSize - 1 - n = 0 := by omega
        simp only [e1, Nat.min_zero, List.replicate_zero, List.nil_append, Nat.sub_zero,
          List.replicate_succ]
      · rw [hres]
        have e1 : stackSize - 1 - n = 0 := by omega
        simp only [e1, List.take_zero]

/-- C5: from a fresh evaluator, consecutive `pushOperand` calls with any values
succeed for the first `stackSize - 1` (15) of them, every later call (the 16th
onwards) fails with the stack-full error, and the resident sequence at the end
is the first `stackSize - 1` values in push order. -/
theorem C5_pushOperand_capacity [Zero V] (vs : List V) :
    ∃ r', pushOperands (rpnEvaluator.fresh : rpnEvaluator V) vs = .ret
        (List.replicate (min vs.length (stackSize - 1)) none ++
          List.replicate (vs.length - (stackSize - 1)) (some .StackFull), r') ∧
      r'.resident = vs.take (stackSize - 1) := by
  obtain ⟨r', h1, h2⟩ := pushOperands_of_count vs (rpnEvaluator.fresh : rpnEvaluator V) 0 rfl
    (Nat.zero_le _)
  refine ⟨r', h1, ?_⟩
  rw [h2]
  simp [rpnEvaluator.resident, rpnEvaluator.fresh]

end PushOperands

/-! ## The service -/

section ServiceLemmas

variable {V : Type} [Zero V] [Add V] [Sub V] [Mul V] [Div V]

omit [Add V] [Sub V] [Mul V] [Div V] in
theorem resident_fresh : (rpnEvaluator.fresh : rpnEvaluator V).resident = [] := by
  simp [rpnEvaluator.resident, rpnEvaluator.fresh]

/-- The value of `EvaluateBatch` with a live context, once the loop has run to
its end in state `r`. -/
theorem EvaluateBatch_of_loop_ok (tokens : List (Token V)) (r : rpnEvaluator V)
    (h : batchLoop rpnEvaluator.fresh tokens = .ret (.ok r)) :
    EvaluateBatch none ⟨tokens⟩ =
      if r.ptr = 1 then .ret (some ⟨r.stack ⟨0, by decide⟩⟩, none)
      else .ret (none, some (grpcErrorf .InvalidArgument EvalError.IncompleteExpression.Error)) := by
  by_cases h1 : r.ptr = 1
  · simp only [EvaluateBatch, h, result_of_one r h1, if_pos h1]
  · simp only [EvaluateBatch, h, result_of_ne_one r h1, if_neg h1]

theorem EvaluateBatch_of_loop_error (tokens : List (Token V)) (e : RpcError)
    (h : batchLoop rpnEvaluator.fresh tokens = .ret (.error e)) :
    EvaluateBatch none ⟨tokens⟩ = .ret (none, some e) := by
  simp only [EvaluateBatch, h]

/-- The value of the stream loop at a clean end of input in state `r`. -/
theorem streamLoop_nil_EOF (r : rpnEvaluator V) :
    streamLoop .EOF none r [] =
      if r.ptr = 1 then
        .ret { err := none, sent := [⟨r.stack ⟨0, by decide⟩⟩], unread := [] }
      else
        .ret { err := some (grpcErrorf .InvalidArgument EvalError.IncompleteExpression.Error),
               sent := [], unread := [] } := by
  by_cases h1 : r.ptr = 1
  · simp only [streamLoop, result_of_one r h1, if_pos h1]
  · simp only [streamLoop, result_of_ne_one r h1, if_neg h1]

theorem inRange_of_batchLoop (p : List (Token V)) (r : rpnEvaluator V)
    (h : batchLoop rpnEvaluator.fresh p = .ret (.ok r)) : r.inRange := by
  rcases batchLoop_inRange p (rpnEvaluator.fresh : rpnEvaluator V) fresh_inRange with
    ⟨e, he⟩ | ⟨r', hr', hin⟩
  · rw [he] at h; cases h
  · rw [hr'] at h; cases h; exact hin

/-- The stream loop stops at a token on which the batch loop returns an error,
and leaves every later request unread. -/
theorem streamLoop_fail_now (c : RecvEnd) (se : Option String) (r : rpnEvaluator V)
    (t : Token V) (s : List (Token V)) (e : RpcError)
    (h : batchLoop r [t] = .ret (.error e)) :
    streamLoop c se r ((t :: s).map fun t => ⟨some t⟩)
      = .ret { err := some e, sent := [], unread := s.map fun t => ⟨some t⟩ } := by
  cases t with
  | operand v =>
    simp only [batchLoop, streamLoop, List.map_cons] at h ⊢
    cases hp : r.pushOperand v with
    | panic => rw [hp] at h; cases h
    | ret x =>
      obtain ⟨e1, r1⟩ := x
      cases e1 with
      | some e1 => rw [hp] at h; cases h; rfl
      | none => rw [hp] at h; cases h
  | operator op =>
    simp only [batchLoop, streamLoop, List.map_cons] at h ⊢
    cases hp : r.pushOperator op with
    | panic => rw [hp] at h; cases h
    | ret x =>
      obtain ⟨e1, r1⟩ := x
      cases e1 with
      | some e1 => rw [hp] at h; cases h; rfl
      | none => rw [hp] at h; cases h
  | unset => simp only [batchLoop] at h; cases h

end ServiceLemmas

section ServiceClaims

variable {V : Type} [Zero V] [Add V] [Sub V] [Mul V] [Div V]

/-- C6: on a list of operands and supported operators whose running depth never
exceeds `stackSize - 1` (15), `EvaluateBatch` with a live context returns what
the reference postfix evaluator over an unbounded list returns: the same value
when the reference ends with exactly one value, the not-enough-operands error
when the reference meets an operator with fewer than two values, and the
incomplete-expression error when the reference ends with a number of values
other than one; the reference has no other outcome on such a list. -/
theorem C6_batch_matches_reference (tokens : List (Token V))
    (hwf : ∀ t ∈ tokens, t.wellFormed = true)
    (hdepth : ∀ k ≤ tokens.length, depth (tokens.take k) ≤ (stackSize : Int) - 1) :
    (∀ v, refEval tokens = .ok v →
      EvaluateBatch none ⟨tokens⟩ = .ret (some ⟨v⟩, none)) ∧
    (refEval tokens = .error .underflow →
      EvaluateBatch none ⟨tokens⟩ =
        .ret (none, some (.status .InvalidArgument "not enough operands"))) ∧
    (refEval tokens = .error .leftover →
      EvaluateBatch none ⟨tokens⟩ =
        .ret (none, some (.status .InvalidArgument
          "incomplete expression: unused operands still in stack"))) ∧
    refEval tokens ≠ .error .malformed := by
  have h := batchLoop_refines tokens (rpnEvaluator.fresh : rpnEvaluator V) [] fresh_inRange
    (by rw [resident_fresh]; rfl) hwf
    (fun k hk => by
      have := hdepth k hk
      simp only [rpnEvaluator.fresh]
      omega)
  unfold refEval
  cases hrun : refRun [] tokens with
  | error e =>
    rw [hrun] at h
    cases e with
    | underflow =>
      simp only at h
      refine ⟨?_, ?_, ?_, ?_⟩
      · intro v hv; cases hv
      · intro _; exact EvaluateBatch_of_loop_error tokens _ h
      · intro hv; cases hv
      · intro hv; cases hv
    | leftover => exact absurd h id
    | malformed => exact absurd h id
  | ok stk =>
    rw [hrun] at h
    obtain ⟨r, hloop, hres, hr⟩ := h
    have hlen : (stk.length : Int) = r.ptr := by
      have := resident_length r hr.1 (by have := hr.2; omega)
      rw [hres, List.length_reverse] at this
      exact this
    have hbatch := EvaluateBatch_of_loop_ok tokens r hloop
    rcases stk with _ | ⟨v, _ | ⟨v', rest⟩⟩
    · have h1 : r.ptr ≠ 1 := by simp at hlen; omega
      rw [if_neg h1] at hbatch
      refine ⟨?_, ?_, ?_, ?_⟩
      · intro v hv; cases hv
      · intro hv; cases hv
      · intro _; exact hbatch
      · intro hv; cases hv
    · have h1 : r.ptr = 1 := by simp at hlen; omega
      rw [if_pos h1] at hbatch
      have hv : r.stack ⟨0, by decide⟩ = v := by
        have := resident_of_one r h1
        rw [hres] at this
        simpa using this.symm
      rw [hv] at hbatch
      refine ⟨?_, ?_, ?_, ?_⟩
      · intro w hw; cases hw; exact hbatch
      · intro hw; cases hw
      · intro hw; cases hw
      · intro hw; cases hw
    · have h1 : r.ptr ≠ 1 := by simp at hlen; omega
      rw [if_neg h1] at hbatch
      refine ⟨?_, ?_, ?_, ?_⟩
      · intro v hv; cases hv
      · intro hv; cases hv
      · intro _; exact hbatch
      · intro hv; cases hv

/-- C7: for every token sequence, `EvaluateStream` on the stream that delivers
exactly these tokens and then ends cleanly, and `EvaluateBatch` on the same
list with a live context, have the same outcome: both succeed with the same
value (the stream sends it as its one reply), or both fail with the same error,
code and message alike (and the stream sends nothing). -/
theorem C7_stream_batch_agree (tokens : List (Token V)) :
    ∃ out, EvaluateStream (cleanStream tokens) = .ret out ∧
      ((∃ v, out.err = none ∧ out.sent = [⟨v⟩] ∧
          EvaluateBatch none ⟨tokens⟩ = .ret (some ⟨v⟩, none)) ∨
       (∃ e, out.err = some e ∧ out.sent = [] ∧
          EvaluateBatch none ⟨tokens⟩ = .ret (none, some e))) := by
  rcases batchLoop_inRange tokens (rpnEvaluator.fresh : rpnEvaluator V) fresh_inRange with
    ⟨e, he⟩ | ⟨r, hr, _⟩
  · obtain ⟨out, hout, herr, hsent⟩ := streamLoop_of_batch_error .EOF none tokens _ e he
    exact ⟨out, hout, Or.inr ⟨e, herr, hsent, EvaluateBatch_of_loop_error tokens e he⟩⟩
  · have hstream : EvaluateStream (cleanStream tokens) = streamLoop .EOF none r [] := by
      have := streamLoop_append .EOF none tokens [] _ r hr
      simpa [EvaluateStream, cleanStream] using this
    have hbatch := EvaluateBatch_of_loop_ok tokens r hr
    rw [hstream, streamLoop_nil_EOF]
    by_cases h1 : r.ptr = 1
    · rw [if_pos h1] at hbatch ⊢
      exact ⟨_, rfl, Or.inl ⟨_, rfl, rfl, hbatch⟩⟩
    · rw [if_neg h1] at hbatch ⊢
      exact ⟨_, rfl, Or.inr ⟨_, rfl, rfl, hbatch⟩⟩

/-- C8: the service reports an evaluator failure under exactly one code, in
both modes. After any tokens `p` that the loop has accepted, leaving state `r`:
a failing `pushOperand` is the stack-full error and is reported as
resource-exhausted; a failing `pushOperator` is the not-enough-operands or the
unsupported-operator error (never stack-full) and is reported as
invalid-argument; a failing `result()` is the incomplete-expression error and
is reported as invalid-argument. The message is the text of the error. -/
theorem C8_error_code_mapping (p : List (Token V)) (r : rpnEvaluator V)
    (hp : batchLoop rpnEvaluator.fresh p = .ret (.ok r)) :
    (∀ v e r' s, r.pushOperand v = .ret (some e, r') →
      e = .StackFull ∧
      EvaluateBatch none ⟨p ++ .operand v :: s⟩
        = .ret (none, some (.status .ResourceExhausted e.Error)) ∧
      ∀ c se, ∃ out,
        EvaluateStream ⟨(p ++ .operand v :: s).map fun t => ⟨some t⟩, c, se⟩ = .ret out ∧
        out.err = some (.status .ResourceExhausted e.Error) ∧ out.sent = []) ∧
    (∀ op e r' s, r.pushOperator op = .ret (some e, r') →
      (e = .InsufficientOperands ∨ e = .UnsupportedOperator op) ∧
      EvaluateBatch none ⟨p ++ .operator op :: s⟩
        = .ret (none, some (.status .InvalidArgument e.Error)) ∧
      ∀ c se, ∃ out,
        EvaluateStream ⟨(p ++ .operator op :: s).map fun t => ⟨some t⟩, c, se⟩ = .ret out ∧
        out.err = some (.status .InvalidArgument e.Error) ∧ out.sent = []) ∧
    (∀ v e r', r.result = .ret ((v, some e), r') →
      e = .IncompleteExpression ∧
      EvaluateBatch none ⟨p⟩ = .ret (none, some (.status .InvalidArgument e.Error)) ∧
      ∀ se, ∃ out,
        EvaluateStream ⟨p.map fun t => ⟨some t⟩, .EOF, se⟩ = .ret out ∧
        out.err = some (.status .InvalidArgument e.Error) ∧ out.sent = []) := by
  have hr := inRange_of_batchLoop p r hp
  refine ⟨?_, ?_, ?_⟩
  · intro v e r' s hpush
    have hbl : batchLoop r [Token.operand v]
        = .ret (.error (grpcErrorf .ResourceExhausted e.Error)) := by
      simp only [batchLoop, hpush]
    have he : e = .StackFull := by
      rcases pushOperand_inRange r v hr with ⟨h1, _⟩ | ⟨r1, h1, _⟩
      · rw [h1] at hpush; cases hpush; rfl
      · rw [h1] at hpush; cases hpush
    refine ⟨he, ?_, ?_⟩
    · apply EvaluateBatch_of_loop_error
      rw [batchLoop_append p _ _ r hp]
      exact batchLoop_append_error [Token.operand v] s r _ hbl
    · intro c se
      refine ⟨{ err := some _, sent := [], unread := s.map fun t => ⟨some t⟩ }, ?_, rfl, rfl⟩
      simp only [EvaluateStream]
      rw [streamLoop_append c se p _ _ r hp]
      exact streamLoop_fail_now c se r _ s _ hbl
  · intro op e r' s hpush
    have hbl : batchLoop r [Token.operator op]
        = .ret (.error (grpcErrorf .InvalidArgument e.Error)) := by
      simp only [batchLoop, hpush]
    have he : e = .InsufficientOperands ∨ e = .UnsupportedOperator op := by
      rcases pushOperator_inRange r op hr with ⟨_, h1⟩ | ⟨_, _, h1⟩ | ⟨_, _, r1, h1, _⟩
      · rw [h1] at hpush; cases hpush; exact Or.inl rfl
      · rw [h1] at hpush; cases hpush; exact Or.inr rfl
      · rw [h1] at hpush; cases hpush
    refine ⟨he, ?_, ?_⟩
    · apply EvaluateBatch_of_loop_error
      rw [batchLoop_append p _ _ r hp]
      exact batchLoop_append_error [Token.operator op] s r _ hbl
    · intro c se
      refine ⟨{ err := some _, sent := [], unread := s.map fun t => ⟨some t⟩ }, ?_, rfl, rfl⟩
      simp only [EvaluateStream]
      rw [streamLoop_append c se p _ _ r hp]
      exact streamLoop_fail_now c se r _ s _ hbl
  · intro v e r' hres
    have h1 : r.ptr ≠ 1 := by
      intro h1
      rw [result_of_one r h1] at hres
      cases hres
    have he : e = .IncompleteExpression := by
      rw [result_of_ne_one r h1] at hres
      cases hres
      rfl
    subst he
    refine ⟨rfl, ?_, ?_⟩
    · rw [EvaluateBatch_of_loop_ok p r hp, if_neg h1]
      rfl
    · intro se
      refine ⟨{ err := some _, sent := [], unread := [] }, ?_, rfl, rfl⟩
      have := streamLoop_append .EOF se p [] _ r hp
      simp only [List.append_nil, List.map_nil] at this
      simp only [EvaluateStream, this, streamLoop, result_of_ne_one r h1]
      rfl

/-- C9: an empty token sequence fails with invalid-argument in both modes:
`EvaluateBatch` on the empty list (live context) and `EvaluateStream` on a
stream that ends before any token return the incomplete-expression error, and
no result is returned or sent. -/
theorem C9_empty_tokens_fail :
    EvaluateBatch none (⟨[]⟩ : EvaluateBatchRequest V)
      = .ret (none, some (.status .InvalidArgument
          "incomplete expression: unused operands still in stack")) ∧
    ∀ se, EvaluateStream (⟨[], .EOF, se⟩ : ServerStream V)
      = .ret { err := some (.status .InvalidArgument
                "incomplete expression: unused operands still in stack"),
               sent := [], unread := [] } := by
  have h1 : (rpnEvaluator.fresh : rpnEvaluator V).ptr ≠ 1 := by
    simp [rpnEvaluator.fresh]
  refine ⟨?_, fun se => ?_⟩
  · simp only [EvaluateBatch, batchLoop, result_of_ne_one _ h1]
    rfl
  · simp only [EvaluateStream, streamLoop, result_of_ne_one _ h1]
    rfl

/-- C10: evaluation stops at the first failing token. When the loop accepts
every token of `p` but the last and returns error `e` at the last one, then for
every continuation `s`, `EvaluateBatch` on `p ++ s` returns the same error `e`
as on `p` alone and no result, and `EvaluateStream` on `p ++ s` returns `e`,
sends nothing, and leaves every request of `s` unread. -/
theorem C10_abort_at_first_failure (p : List (Token V)) (e : RpcError) (r : rpnEvaluator V)
    (hfail : batchLoop rpnEvaluator.fresh p = .ret (.error e))
    (hprev : batchLoop rpnEvaluator.fresh p.dropLast = .ret (.ok r)) :
    EvaluateBatch none ⟨p⟩ = .ret (none, some e) ∧
    ∀ s, EvaluateBatch none ⟨p ++ s⟩ = .ret (none, some e) ∧
      ∀ c se, EvaluateStream ⟨(p ++ s).map fun t => ⟨some t⟩, c, se⟩
        = .ret { err := some e, sent := [], unread := s.map fun t => ⟨some t⟩ } := by
  refine ⟨EvaluateBatch_of_loop_error p e hfail, fun s => ⟨?_, fun c se => ?_⟩⟩
  · exact EvaluateBatch_of_loop_error _ e (batchLoop_append_error p s _ e hfail)
  · have hne : p ≠ [] := by
      intro h; rw [h] at hfail; simp only [batchLoop] at hfail; cases hfail
    have hsplit : p = p.dropLast ++ [p.getLast hne] := (List.dropLast_append_getLast hne).symm
    have hlast : batchLoop r [p.getLast hne] = .ret (.error e) := by
      rw [← batchLoop_append p.dropLast [p.getLast hne] _ r hprev, ← hsplit]
      exact hfail
    have happ : p ++ s = p.dropLast ++ (p.getLast hne :: s) := by
      conv_lhs => rw [hsplit]
      simp
    simp only [EvaluateStream]
    rw [happ, streamLoop_append c se p.dropLast _ _ r hprev]
    exact streamLoop_fail_now c se r _ s e hlast

end ServiceClaims

/-! ## The theorems at concrete inputs (values in `ℚ`) -/

section Witnesses

theorem C1_pushOperand_contract_witness :
    (0 : Int) ≤ (rpnEvaluator.fresh : rpnEvaluator ℚ).ptr ∧
    (rpnEvaluator.fresh : rpnEvaluator ℚ).ptr < (stackSize : Int) - 1 ∧
    ∃ r', (rpnEvaluator.fresh : rpnEvaluator ℚ).pushOperand 24 = .ret (none, r') ∧
      r'.resident = [24] ∧ r'.ptr = 1 := by
  have h0 : (0 : Int) ≤ (rpnEvaluator.fresh : rpnEvaluator ℚ).ptr := by decide
  have h1 : (rpnEvaluator.fresh : rpnEvaluator ℚ).ptr < (stackSize : Int) - 1 := by decide
  have hc := C1_pushOperand_contract (rpnEvaluator.fresh : rpnEvaluator ℚ) 24
  obtain ⟨r', hr'⟩ := hc.2.2.1 h0 h1
  obtain ⟨hres, hptr, _⟩ := hc.2.1 r' hr'
  exact ⟨h0, h1, r', hr', by rw [hres]; rfl, by rw [hptr]; rfl⟩

theorem C2_pushOperator_contract_witness :
    tenTwo.ptr ≤ (stackSize : Int) ∧ tenTwo.resident = [] ++ [10, 2] ∧
    (∃ r', tenTwo.pushOperator .SUBTRACT = .ret (none, r') ∧ r'.resident = [8] ∧ r'.ptr = 1) ∧
    (∃ r', tenTwo.pushOperator .DIVIDE = .ret (none, r') ∧ r'.resident = [5] ∧ r'.ptr = 1) := by
  have hcap : tenTwo.ptr ≤ (stackSize : Int) := by decide
  have hres : tenTwo.resident = [] ++ [10, 2] := by
    simp [tenTwo, rpnEvaluator.resident, List.ofFn_succ, stackSize]
  obtain ⟨w, r', hw, hp, hr', hptr⟩ :=
    C2_pushOperator_contract tenTwo .SUBTRACT [] 10 2 hcap hres rfl
  have hw8 : w = 8 := by
    simp only [Operator.apply, Option.some.injEq] at hw
    rw [← hw]; norm_num
  obtain ⟨u, q', hu, hq, hq', hqptr⟩ :=
    C2_pushOperator_contract tenTwo .DIVIDE [] 10 2 hcap hres rfl
  have hu5 : u = 5 := by
    simp only [Operator.apply, Option.some.injEq] at hu
    rw [← hu]; norm_num
  exact ⟨hcap, hres, ⟨r', hp, by rw [hr', hw8]; rfl, by rw [hptr]; rfl⟩,
    ⟨q', hq, by rw [hq', hu5]; rfl, by rw [hqptr]; rfl⟩⟩

theorem C3_result_contract_witness :
    (rpnEvaluator.fresh : rpnEvaluator ℚ).ptr ≠ 1 ∧
    (rpnEvaluator.fresh : rpnEvaluator ℚ).result
      = .ret ((0, some .IncompleteExpression), rpnEvaluator.fresh) :=
  ⟨by decide, (C3_result_contract (rpnEvaluator.fresh : rpnEvaluator ℚ)).2.2 (by decide)⟩

theorem C4_pushOperator_insufficient_witness :
    (rpnEvaluator.fresh : rpnEvaluator ℚ).ptr < 2 ∧
    (rpnEvaluator.fresh : rpnEvaluator ℚ).pushOperator .ADD
      = .ret (some .InsufficientOperands, rpnEvaluator.fresh) :=
  ⟨by decide, C4_pushOperator_insufficient (rpnEvaluator.fresh : rpnEvaluator ℚ) .ADD (by decide)⟩

theorem C6_batch_matches_reference_witness :
    ((∀ t ∈ scenarioA, t.wellFormed = true) ∧
      (∀ k ≤ scenarioA.length, depth (scenarioA.take k) ≤ (stackSize : Int) - 1) ∧
      refEval scenarioA = .ok 25 ∧
      EvaluateBatch none ⟨scenarioA⟩ = .ret (some ⟨25⟩, none)) ∧
    ((∀ t ∈ multiplySubtractAdd, t.wellFormed = true) ∧
      (∀ k ≤ multiplySubtractAdd.length,
        depth (multiplySubtractAdd.take k) ≤ (stackSize : Int) - 1) ∧
      refEval multiplySubtractAdd = .ok (-120) ∧
      EvaluateBatch none ⟨multiplySubtractAdd⟩ = .ret (some ⟨-120⟩, none)) := by
  have hwf : ∀ t ∈ scenarioA, t.wellFormed = true := by
    simp [scenarioA, Token.wellFormed, Operator.supported]
  have hd : ∀ k ≤ scenarioA.length, depth (scenarioA.take k) ≤ (stackSize : Int) - 1 := by
    decide
  have href : refEval scenarioA = .ok 25 := by
    simp only [refEval, scenarioA, refRun, Operator.apply]
    norm_num
  have hwf' : ∀ t ∈ multiplySubtractAdd, t.wellFormed = true := by
    simp [multiplySubtractAdd, Token.wellFormed, Operator.supported]
  have hd' : ∀ k ≤ multiplySubtractAdd.length,
      depth (multiplySubtractAdd.take k) ≤ (stackSize : Int) - 1 := by
    decide
  have href' : refEval multiplySubtractAdd = .ok (-120) := by
    simp only [refEval, multiplySubtractAdd, refRun, Operator.apply]
    norm_num
  exact ⟨⟨hwf, hd, href, (C6_batch_matches_reference scenarioA hwf hd).1 25 href⟩,
    ⟨hwf', hd', href',
      (C6_batch_matches_reference multiplySubtractAdd hwf' hd').1 (-120) href'⟩⟩

theorem C8_error_code_mapping_witness :
    batchLoop rpnEvaluator.fresh fifteen = .ret (.ok afterFifteen) ∧
    EvaluateBatch none ⟨fifteen ++ [Token.operand 24]⟩
      = .ret (none, some (.status .ResourceExhausted "stack full")) ∧
    EvaluateBatch none ⟨fifteen ++ [Token.operator (.UNRECOGNIZED 7)]⟩
      = .ret (none, some (.status .InvalidArgument "unimplemented operator: 7")) ∧
    EvaluateBatch none ⟨fifteen⟩
      = .ret (none, some (.status .InvalidArgument
          "incomplete expression: unused operands still in stack")) := by
  have hp : batchLoop rpnEvaluator.fresh fifteen = .ret (.ok afterFifteen) := by
    simp [fifteen, List.replicate, batchLoop, rpnEvaluator.pushOperand, rpnEvaluator.stackSet,
      rpnEvaluator.fresh, stackSize, afterFifteen]
    funext i
    fin_cases i <;> simp [Function.update]
  have hc := C8_error_code_mapping fifteen afterFifteen hp
  have h1 : afterFifteen.pushOperand 24 = .ret (some .StackFull, afterFifteen) := by
    simp [rpnEvaluator.pushOperand, afterFifteen, stackSize]
  have h2 : afterFifteen.pushOperator (.UNRECOGNIZED 7)
      = .ret (some (.UnsupportedOperator (.UNRECOGNIZED 7)), { afterFifteen with ptr := 13 }) := by
    simp [rpnEvaluator.pushOperator, rpnEvaluator.pop, rpnEvaluator.stackGet, afterFifteen,
      stackSize]
  have h3 : afterFifteen.result = .ret ((0, some .IncompleteExpression), afterFifteen) := by
    simp [rpnEvaluator.result, afterFifteen]
  exact ⟨hp, (hc.1 24 _ _ [] h1).2.1, (hc.2.1 _ _ _ [] h2).2.1, (hc.2.2 _ _ _ h3).2.1⟩

theorem C10_abort_at_first_failure_witness :
    batchLoop rpnEvaluator.fresh (fifteen ++ [Token.operand 24])
      = .ret (.error (.status .ResourceExhausted "stack full")) ∧
    batchLoop rpnEvaluator.fresh (fifteen ++ [Token.operand 24]).dropLast
      = .ret (.ok afterFifteen) ∧
    EvaluateBatch none ⟨(fifteen ++ [Token.operand 24]) ++ [Token.operator .ADD, Token.operand 1]⟩
      = .ret (none, some (.status .ResourceExhausted "stack full")) ∧
    EvaluateStream (⟨((fifteen ++ [Token.operand 24]) ++ [Token.operator .ADD, Token.operand 1]).map
        fun t => ⟨some t⟩, .EOF, none⟩ : ServerStream ℚ)
      = .ret { err := some (.status .ResourceExhausted "stack full"), sent := [],
               unread := [⟨some (Token.operator .ADD)⟩, ⟨some (Token.operand 1)⟩] } := by
  have hprev : batchLoop rpnEvaluator.fresh (fifteen ++ [Token.operand 24]).dropLast
      = .ret (.ok afterFifteen) := by
    simp [fifteen, List.replicate, batchLoop, rpnEvaluator.pushOperand, rpnEvaluator.stackSet,
      rpnEvaluator.fresh, stackSize, afterFifteen]
    funext i
    fin_cases i <;> simp [Function.update]
  have hfail : batchLoop rpnEvaluator.fresh (fifteen ++ [Token.operand 24])
      = .ret (.error (.status .ResourceExhausted "stack full")) := by
    simp [fifteen, List.replicate, batchLoop, rpnEvaluator.pushOperand, rpnEvaluator.stackSet,
      rpnEvaluator.fresh, stackSize, grpcErrorf, EvalError.Error]
  have hc := C10_abort_at_first_failure (fifteen ++ [Token.operand 24]) _ afterFifteen hfail hprev
  exact ⟨hfail, hprev, (hc.2 [Token.operator .ADD, Token.operand 1]).1, (hc.2 [Token.operator .ADD, Token.operand 1]).2 .EOF none⟩

end Witnesses

/-! ## Invariant of the count along any sequence of calls -/

section CallLemmas

variable {V : Type} [Zero V] [Add V] [Sub V] [Mul V] [Div V]

omit [Add V] [Sub V] [Mul V] [Div V] in
theorem result_inRange (r : rpnEvaluator V) (h : r.inRange) :
    ∃ x r', r.result = .ret (x, r') ∧ r'.inRange := by
  have hs : (stackSize : Int) = 16 := rfl
  by_cases h1 : r.ptr = 1
  · exact ⟨_, _, result_of_one r h1, by constructor <;> simp only <;> omega⟩
  · exact ⟨_, _, result_of_ne_one r h1, h⟩

theorem exec_inRange (r : rpnEvaluator V) (c : Call V) (h : r.inRange) :
    ∃ r', Call.exec r c = .ret r' ∧ r'.inRange := by
  have hs : (stackSize : Int) = 16 := rfl
  cases c with
  | pushOperand v =>
    rcases pushOperand_inRange r v h with ⟨hp, _⟩ | ⟨r', hp, hr', _, _⟩
    · exact ⟨r, by simp only [Call.exec, hp], h⟩
    · exact ⟨r', by simp only [Call.exec, hp], hr'⟩
  | pushOperator op =>
    rcases pushOperator_inRange r op h with ⟨_, hp⟩ | ⟨h2, _, hp⟩ | ⟨_, _, r', hp, hr', _⟩
    · exact ⟨r, by simp only [Call.exec, hp], h⟩
    · refine ⟨{ r with ptr := r.ptr - 2 }, by simp only [Call.exec, hp], ?_⟩
      have := h.2
      constructor <;> simp only <;> omega
    · exact ⟨r', by simp only [Call.exec, hp], hr'⟩
  | result =>
    obtain ⟨x, r', hp, hr'⟩ := result_inRange r h
    exact ⟨r', by simp only [Call.exec, hp], hr'⟩

theorem runCalls_inRange (calls : List (Call V)) :
    ∀ r : rpnEvaluator V, r.inRange → ∃ r', runCalls r calls = .ret r' ∧ r'.inRange := by
  induction calls with
  | nil => intro r h; exact ⟨r, rfl, h⟩
  | cons c cs ih =>
    intro r h
    obtain ⟨r1, h1, hr1⟩ := exec_inRange r c h
    obtain ⟨r', h2, hr'⟩ := ih r1 hr1
    exact ⟨r', by simp only [runCalls, h1, h2], hr'⟩

omit [Zero V] in
/-- Every error the batch loop returns is a status error. -/
theorem batchLoop_error_is_status (tokens : List (Token V)) :
    ∀ (r : rpnEvaluator V) (e : RpcError), batchLoop r tokens = .ret (.error e) →
      ∃ c m, e = .status c m := by
  induction tokens with
  | nil => intro r e h; simp only [batchLoop] at h; cases h
  | cons t ts ih =>
    intro r e h
    cases t with
    | operand v =>
      simp only [batchLoop] at h
      cases hp : r.pushOperand v with
      | panic => rw [hp] at h; cases h
      | ret x =>
        obtain ⟨e1, r1⟩ := x
        cases e1 with
        | some e1 => rw [hp] at h; cases h; exact ⟨_, _, rfl⟩
        | none => rw [hp] at h; exact ih r1 e h
    | operator op =>
      simp only [batchLoop] at h
      cases hp : r.pushOperator op with
      | panic => rw [hp] at h; cases h
      | ret x =>
        obtain ⟨e1, r1⟩ := x
        cases e1 with
        | some e1 => rw [hp] at h; cases h; exact ⟨_, _, rfl⟩
        | none => rw [hp] at h; exact ih r1 e h
    | unset =>
      simp only [batchLoop] at h
      exact ih r e h

end CallLemmas

section MoreClaims

variable {V : Type} [Zero V] [Add V] [Sub V] [Mul V] [Div V]

/-- C11: when `ctx.Err()` is not nil on entry, `EvaluateBatch` returns that
error as it is and no response, whatever the token list (no evaluator takes
part); when the context is live, the outcome is a value or a status error
computed from the token list, never a context error. -/
theorem C11_batch_context_short_circuit (tokens : List (Token V)) :
    (∀ e : ContextError, EvaluateBatch (some e) ⟨tokens⟩ = .ret (none, some (.context e))) ∧
    ((∃ v, EvaluateBatch none ⟨tokens⟩ = .ret (some ⟨v⟩, none)) ∨
     (∃ c m, EvaluateBatch none ⟨tokens⟩ = .ret (none, some (.status c m)))) := by
  refine ⟨fun e => rfl, ?_⟩
  rcases batchLoop_inRange tokens (rpnEvaluator.fresh : rpnEvaluator V) fresh_inRange with
    ⟨e, he⟩ | ⟨r, hr, _⟩
  · obtain ⟨c, m, hcm⟩ := batchLoop_error_is_status tokens _ e he
    right
    exact ⟨c, m, by rw [EvaluateBatch_of_loop_error tokens e he, hcm]⟩
  · rw [EvaluateBatch_of_loop_ok tokens r hr]
    by_cases h1 : r.ptr = 1
    · left; exact ⟨_, by rw [if_pos h1]⟩
    · right; exact ⟨_, _, by rw [if_neg h1]; rfl⟩

end MoreClaims

section StreamLemmas

variable {V : Type} [Zero V] [Add V] [Sub V] [Mul V] [Div V]

/-- The stream loop once every request has been received, for any end of the
receive side and any answer of `SendAndClose`. -/
theorem streamLoop_nil (c : RecvEnd) (se : Option String) (r : rpnEvaluator V) :
    streamLoop c se r [] =
      match c with
      | .failure e => .ret { err := some (.transport e), sent := [], unread := [] }
      | .EOF =>
        if r.ptr = 1 then
          .ret { err := se.map .transport, sent := [⟨r.stack ⟨0, by decide⟩⟩], unread := [] }
        else
          .ret { err := some (grpcErrorf .InvalidArgument EvalError.IncompleteExpression.Error),
                 sent := [], unread := [] } := by
  cases c with
  | failure e => simp only [streamLoop]
  | EOF =>
    by_cases h1 : r.ptr = 1
    · cases se <;> simp only [streamLoop, result_of_one r h1, if_pos h1, Option.map]
    · simp only [streamLoop, result_of_ne_one r h1, if_neg h1]

/-- A run of the stream loop from a state within range never panics: it ends
with the error of the batch loop and nothing sent, or it reads every request
and ends as `streamLoop_nil` says. -/
theorem streamLoop_outcome (c : RecvEnd) (se : Option String) (tokens : List (Token V))
    (r : rpnEvaluator V) (h : r.inRange) :
    ∃ out, streamLoop c se r (tokens.map fun t => ⟨some t⟩) = .ret out ∧
      ((∃ e, batchLoop r tokens = .ret (.error e) ∧ out.err = some e ∧ out.sent = []) ∨
       (∃ r', batchLoop r tokens = .ret (.ok r') ∧ r'.inRange ∧
          streamLoop c se r' [] = .ret out)) := by
  rcases batchLoop_inRange tokens r h with ⟨e, he⟩ | ⟨r', hr', hin⟩
  · obtain ⟨out, hout, herr, hsent⟩ := streamLoop_of_batch_error c se tokens r e he
    exact ⟨out, hout, Or.inl ⟨e, he, herr, hsent⟩⟩
  · have hs := streamLoop_append c se tokens [] r r' hr'
    simp only [List.append_nil, List.map_nil] at hs
    have hnil := streamLoop_nil c se r'
    cases c with
    | failure e =>
      simp only at hnil
      exact ⟨_, by rw [hs, hnil], Or.inr ⟨r', hr', hin, hnil⟩⟩
    | EOF =>
      simp only at hnil
      by_cases h1 : r'.ptr = 1
      · rw [if_pos h1] at hnil
        exact ⟨_, by rw [hs, hnil], Or.inr ⟨r', hr', hin, hnil⟩⟩
      · rw [if_neg h1] at hnil
        exact ⟨_, by rw [hs, hnil], Or.inr ⟨r', hr', hin, hnil⟩⟩

omit [Zero V] in
/-- The errors the batch loop can return from a state within range. -/
theorem batchLoop_error_cases (tokens : List (Token V)) :
    ∀ (r : rpnEvaluator V) (e : RpcError), r.inRange → batchLoop r tokens = .ret (.error e) →
      e = grpcErrorf .ResourceExhausted EvalError.StackFull.Error ∨
      e = grpcErrorf .InvalidArgument EvalError.InsufficientOperands.Error ∨
      ∃ op, e = grpcErrorf .InvalidArgument (EvalError.UnsupportedOperator op).Error := by
  induction tokens with
  | nil => intro r e _ h; simp only [batchLoop] at h; cases h
  | cons t ts ih =>
    intro r e hr h
    cases t with
    | operand v =>
      rcases pushOperand_inRange r v hr with ⟨hp, _⟩ | ⟨r', hp, hr', _, _⟩
      · simp only [batchLoop, hp] at h; cases h; exact Or.inl rfl
      · simp only [batchLoop, hp] at h; exact ih r' e hr' h
    | operator op =>
      rcases pushOperator_inRange r op hr with ⟨_, hp⟩ | ⟨_, _, hp⟩ | ⟨_, _, r', hp, hr', _⟩
      · simp only [batchLoop, hp] at h; cases h; exact Or.inr (Or.inl rfl)
      · simp only [batchLoop, hp] at h; cases h; exact Or.inr (Or.inr ⟨op, rfl⟩)
      · simp only [batchLoop, hp] at h; exact ih r' e hr' h
    | unset => simp only [batchLoop] at h; exact ih r e hr h

/-- No error the service builds under the invalid-argument code carries the
text of the stack-full error. -/
theorem not_invalid_stack_full (e : RpcError)
    (h : e = grpcErrorf .ResourceExhausted EvalError.StackFull.Error ∨
      e = grpcErrorf .InvalidArgument EvalError.InsufficientOperands.Error ∨
      (∃ op, e = grpcErrorf .InvalidArgument (EvalError.UnsupportedOperator op).Error) ∨
      e = grpcErrorf .InvalidArgument EvalError.IncompleteExpression.Error) :
    e ≠ .status .InvalidArgument "stack full" := by
  rcases h with h | h | ⟨op, h⟩ | h
  · rw [h]; decide
  · rw [h]; decide
  · rw [h]
    intro hc
    simp only [grpcErrorf, EvalError.Error, RpcError.status.injEq, true_and] at hc
    have := congrArg String.data hc
    simp [String.data_append] at this
  · rw [h]; decide

end StreamLemmas

section EvaluatorClaims

variable {V : Type} [Zero V] [Add V] [Sub V] [Mul V] [Div V]

/-- C14: division by zero is not an error. On a state whose count fits the
array and whose resident sequence ends with `v1` and a zero on top,
`pushOperator(DIVIDE)` succeeds and replaces them by the quotient `v1 / 0` of
the value type; and the operands `a`, `0` followed by DIVIDE evaluate, in both
modes, to the quotient `a / 0` with no error. -/
theorem C14_division_by_zero (r : rpnEvaluator V) (xs : List V) (v1 : V)
    (hcap : r.ptr ≤ (stackSize : Int)) (hres : r.resident = xs ++ [v1, 0]) :
    (∃ r', r.pushOperator .DIVIDE = .ret (none, r') ∧ r'.resident = xs ++ [v1 / 0] ∧
      r'.ptr = r.ptr - 1) ∧
    ∀ a : V,
      EvaluateBatch none ⟨[.operand a, .operand 0, .operator .DIVIDE]⟩
        = .ret (some ⟨a / 0⟩, none) ∧
      EvaluateStream (cleanStream [.operand a, .operand 0, .operator .DIVIDE])
        = .ret { err := none, sent := [⟨a / 0⟩], unread := [] } := by
  have hs : (stackSize : Int) = 16 := rfl
  refine ⟨pushOperator_of_resident r .DIVIDE xs v1 0 (v1 / 0) hcap hres rfl, fun a => ?_⟩
  -- the run from a fresh evaluator: two pushes, the division, the result
  obtain ⟨r1, hp1, hr1, hptr1, hres1⟩ : ∃ r1, (rpnEvaluator.fresh : rpnEvaluator V).pushOperand a
      = .ret (none, r1) ∧ r1.inRange ∧ r1.ptr = 1 ∧ r1.resident = [a] := by
    rcases pushOperand_inRange (rpnEvaluator.fresh : rpnEvaluator V) a fresh_inRange with
      ⟨_, hf⟩ | ⟨r1, hp, hr, hptr, hres⟩
    · simp [rpnEvaluator.fresh, stackSize] at hf
    · exact ⟨r1, hp, hr, by rw [hptr]; rfl, by rw [hres, resident_fresh]; rfl⟩
  obtain ⟨r2, hp2, hr2, hptr2, hres2⟩ : ∃ r2, r1.pushOperand 0 = .ret (none, r2) ∧
      r2.inRange ∧ r2.ptr = 2 ∧ r2.resident = [] ++ [a, 0] := by
    rcases pushOperand_inRange r1 0 hr1 with ⟨_, hf⟩ | ⟨r2, hp, hr, hptr, hres⟩
    · omega
    · exact ⟨r2, hp, hr, by rw [hptr, hptr1]; rfl, by rw [hres, hres1]; rfl⟩
  obtain ⟨r3, hp3, hres3, hptr3⟩ := pushOperator_of_resident r2 .DIVIDE [] a 0 (a / 0)
    (by omega) hres2 rfl
  have h1 : r3.ptr = 1 := by omega
  have hv : r3.stack ⟨0, by decide⟩ = a / 0 := by
    have := resident_of_one r3 h1
    rw [hres3] at this
    simpa using this.symm
  have hloop : batchLoop (rpnEvaluator.fresh : rpnEvaluator V)
      [.operand a, .operand 0, .operator .DIVIDE] = .ret (.ok r3) := by
    simp only [batchLoop, hp1, hp2, hp3]
  constructor
  · rw [EvaluateBatch_of_loop_ok _ r3 hloop, if_pos h1, hv]
  · have hsl := streamLoop_append .EOF none [.operand a, .operand 0, .operator .DIVIDE] []
      (rpnEvaluator.fresh : rpnEvaluator V) r3 hloop
    simp only [List.append_nil, List.map_nil] at hsl
    simp only [EvaluateStream, cleanStream]
    rw [hsl, streamLoop_nil_EOF, if_pos h1, hv]

/-- C15: on a state with at least two resident values (and a count that fits
the array), `pushOperator` with a tag outside the four supported ones returns
the unsupported-operator error and writes no slot; when the service meets such
an operator in that state it returns invalid-argument with the text of that
error, in both modes, and the stream sends nothing. -/
theorem C15_unsupported_operator (r : rpnEvaluator V) (tag : Int) (h2 : 2 ≤ r.ptr)
    (hcap : r.ptr ≤ (stackSize : Int)) :
    (∃ r', r.pushOperator (.UNRECOGNIZED tag)
        = .ret (some (.UnsupportedOperator (.UNRECOGNIZED tag)), r') ∧ r'.stack = r.stack) ∧
    ∀ p s : List (Token V), batchLoop rpnEvaluator.fresh p = .ret (.ok r) →
      EvaluateBatch none ⟨p ++ .operator (.UNRECOGNIZED tag) :: s⟩
        = .ret (none, some (.status .InvalidArgument
            ("unimplemented operator: " ++ toString tag))) ∧
      ∀ c se, EvaluateStream
          ⟨(p ++ .operator (.UNRECOGNIZED tag) :: s).map fun t => ⟨some t⟩, c, se⟩
        = .ret { err := some (.status .InvalidArgument
                  ("unimplemented operator: " ++ toString tag)),
                 sent := [], unread := s.map fun t => ⟨some t⟩ } := by
  have hs : (stackSize : Int) = 16 := rfl
  obtain ⟨i, hi⟩ := exists_index (r.ptr - 2) (by omega) (by omega)
  obtain ⟨j, hj⟩ := exists_index (r.ptr - 1) (by omega) (by omega)
  have hpo := pushOperator_of_index r (.UNRECOGNIZED tag) i j hi hj
  simp only [Operator.apply] at hpo
  refine ⟨⟨_, hpo, rfl⟩, fun p s hp => ?_⟩
  have hbl : batchLoop r [Token.operator (.UNRECOGNIZED tag)]
      = .ret (.error (.status .InvalidArgument ("unimplemented operator: " ++ toString tag))) := by
    simp only [batchLoop, hpo]
    rfl
  refine ⟨?_, fun c se => ?_⟩
  · apply EvaluateBatch_of_loop_error
    rw [batchLoop_append p _ _ r hp]
    exact batchLoop_append_error [Token.operator (.UNRECOGNIZED tag)] s r _ hbl
  · simp only [EvaluateStream]
    rw [streamLoop_append c se p _ _ r hp]
    exact streamLoop_fail_now c se r _ s _ hbl

/-- C16: a streaming call hands at most one message to `SendAndClose`. For every
sequence of received tokens, every end of the receive side and every answer of
`SendAndClose`, the call returns, and:
* when every token is accepted, the input ends cleanly and `result()` succeeds
  with `v`, exactly the one message carrying `v` is sent, after the last
  request was read, and the call returns nil unless the send itself fails;
* when a push fails, the call returns the error of that push and sends nothing;
* when every token is accepted and the input ends cleanly but `result()` fails,
  the call returns invalid-argument with the text of that error and sends
  nothing;
* when the receive side ends with an error of the transport, the call returns
  that error and sends nothing.
These cases are exhaustive. So a message is sent only in the first case, never
more than one, and never when the call fails with a status code. -/
theorem C16_at_most_one_reply (tokens : List (Token V)) (c : RecvEnd) (se : Option String) :
    ∃ out, EvaluateStream ⟨tokens.map fun t => ⟨some t⟩, c, se⟩ = .ret out ∧
      ((∃ r v r', batchLoop rpnEvaluator.fresh tokens = .ret (.ok r) ∧ c = .EOF ∧
          r.result = .ret ((v, none), r') ∧
          out.sent = [⟨v⟩] ∧ out.unread = [] ∧ out.err = se.map .transport) ∨
       (out.sent = [] ∧ out.err ≠ none)) ∧
      out.sent.length ≤ 1 ∧
      (∀ code msg, out.err = some (.status code msg) → out.sent = []) ∧
      (∀ r v r', batchLoop rpnEvaluator.fresh tokens = .ret (.ok r) → c = .EOF →
        r.result = .ret ((v, none), r') →
        out.sent = [⟨v⟩] ∧ out.unread = [] ∧ out.err = se.map .transport) ∧
      (∀ e, batchLoop rpnEvaluator.fresh tokens = .ret (.error e) →
        out.err = some e ∧ out.sent = []) ∧
      (∀ r v e r', batchLoop rpnEvaluator.fresh tokens = .ret (.ok r) → c = .EOF →
        r.result = .ret ((v, some e), r') →
        out.err = some (.status .InvalidArgument e.Error) ∧ out.sent = []) ∧
      (∀ r m, batchLoop rpnEvaluator.fresh tokens = .ret (.ok r) → c = .failure m →
        out.err = some (.transport m) ∧ out.sent = []) ∧
      ((∃ e, batchLoop (rpnEvaluator.fresh : rpnEvaluator V) tokens = .ret (.error e)) ∨
       (∃ r, batchLoop (rpnEvaluator.fresh : rpnEvaluator V) tokens = .ret (.ok r) ∧
          ((∃ m, c = .failure m) ∨
           (c = .EOF ∧ ((∃ v r', r.result = .ret ((v, none), r')) ∨
              (∃ v e r', r.result = .ret ((v, some e), r'))))))) := by
  obtain ⟨out, hout, h⟩ := streamLoop_outcome c se tokens (rpnEvaluator.fresh : rpnEvaluator V)
    fresh_inRange
  refine ⟨out, hout, ?_⟩
  rcases h with ⟨e0, he0, herr, hsent⟩ | ⟨r0, hr0, _, hnil⟩
  · -- a push failed
    refine ⟨Or.inr ⟨hsent, by rw [herr]; simp⟩, by rw [hsent]; simp, fun _ _ _ => hsent,
      ?_, ?_, ?_, ?_, Or.inl ⟨e0, he0⟩⟩
    · intro r v r' hr; rw [he0] at hr; cases hr
    · intro e he; rw [he0] at he; cases he; exact ⟨herr, hsent⟩
    · intro r v e r' hr; rw [he0] at hr; cases hr
    · intro r m hr; rw [he0] at hr; cases hr
  · rw [streamLoop_nil] at hnil
    cases c with
    | failure m0 =>
      simp only at hnil
      cases hnil
      refine ⟨Or.inr ⟨rfl, by simp⟩, by simp, fun _ _ _ => rfl, ?_, ?_, ?_, ?_,
        Or.inr ⟨r0, hr0, Or.inl ⟨m0, rfl⟩⟩⟩
      · intro r v r' _ hc; cases hc
      · intro e he; rw [hr0] at he; cases he
      · intro r v e r' _ hc; cases hc
      · intro r m _ hc; cases hc; exact ⟨rfl, rfl⟩
    | EOF =>
      simp only at hnil
      by_cases h1 : r0.ptr = 1
      · rw [if_pos h1] at hnil
        cases hnil
        have hres := result_of_one r0 h1
        refine ⟨Or.inl ⟨r0, _, _, hr0, rfl, hres, rfl, rfl, rfl⟩, by simp, ?_, ?_, ?_, ?_, ?_,
          Or.inr ⟨r0, hr0, Or.inr ⟨rfl, Or.inl ⟨_, _, hres⟩⟩⟩⟩
        · intro code msg hc
          cases se <;> simp at hc
        · intro r v r' hr _ hv
          rw [hr0] at hr; cases hr
          rw [hres] at hv; cases hv
          exact ⟨rfl, rfl, rfl⟩
        · intro e he; rw [hr0] at he; cases he
        · intro r v e r' hr _ hv
          rw [hr0] at hr; cases hr
          rw [hres] at hv; cases hv
        · intro r m _ hc; cases hc
      · rw [if_neg h1] at hnil
        cases hnil
        have hres := result_of_ne_one r0 h1
        refine ⟨Or.inr ⟨rfl, by simp⟩, by simp, fun _ _ _ => rfl, ?_, ?_, ?_, ?_,
          Or.inr ⟨r0, hr0, Or.inr ⟨rfl, Or.inr ⟨_, _, _, hres⟩⟩⟩⟩
        · intro r v r' hr _ hv
          rw [hr0] at hr; cases hr
          rw [hres] at hv; cases hv
        · intro e he; rw [hr0] at he; cases he
        · intro r v e r' hr _ hv
          rw [hr0] at hr; cases hr
          rw [hres] at hv; cases hv
          exact ⟨rfl, rfl⟩
        · intro r m _ hc; cases hc

/-- C17: from a fresh evaluator, every sequence of `pushOperand`,
`pushOperator` and `result` calls, successful or failing, runs without a panic
(no array access is out of bounds, no `pop` on an empty stack) and leaves the
count within `[0, stackSize - 1]`. -/
theorem C17_count_stays_in_range (calls : List (Call V)) :
    ∃ r, runCalls (rpnEvaluator.fresh : rpnEvaluator V) calls = .ret r ∧
      0 ≤ r.ptr ∧ r.ptr ≤ (stackSize : Int) - 1 :=
  runCalls_inRange calls rpnEvaluator.fresh fresh_inRange

/-- C18: in a state reached from a fresh evaluator by any calls, `pushOperator`
never returns the stack-full error, and with at least two resident values and
a supported operator it succeeds; so the service never reports the stack-full
text under the invalid-argument code, in either mode. -/
theorem C18_pushOperator_never_stack_full (calls : List (Call V)) (r : rpnEvaluator V)
    (hr : runCalls rpnEvaluator.fresh calls = .ret r) (op : Operator) :
    (∀ r', r.pushOperator op ≠ .ret (some .StackFull, r')) ∧
    (2 ≤ r.ptr → op.supported = true → ∃ r', r.pushOperator op = .ret (none, r')) ∧
    (∀ tokens : List (Token V),
      EvaluateBatch none ⟨tokens⟩ ≠ .ret (none, some (.status .InvalidArgument "stack full")) ∧
      ∀ c se out, EvaluateStream ⟨tokens.map fun t => ⟨some t⟩, c, se⟩ = .ret out →
        out.err ≠ some (.status .InvalidArgument "stack full")) := by
  have hin : r.inRange := by
    obtain ⟨r', h1, h2⟩ := runCalls_inRange calls (rpnEvaluator.fresh : rpnEvaluator V)
      fresh_inRange
    rw [h1] at hr; cases hr; exact h2
  refine ⟨?_, ?_, ?_⟩
  · intro r' hc
    rcases pushOperator_inRange r op hin with ⟨_, hp⟩ | ⟨_, _, hp⟩ | ⟨_, _, r1, hp, _⟩ <;>
      · rw [hp] at hc; cases hc
  · intro h2 hop
    rcases pushOperator_inRange r op hin with ⟨hlt, _⟩ | ⟨_, hf, _⟩ | ⟨_, _, r1, hp, _⟩
    · omega
    · rw [hop] at hf; cases hf
    · exact ⟨r1, hp⟩
  · intro tokens
    have hbatch : ∀ e, batchLoop (rpnEvaluator.fresh : rpnEvaluator V) tokens = .ret (.error e) →
        e ≠ .status .InvalidArgument "stack full" := by
      intro e he
      apply not_invalid_stack_full
      rcases batchLoop_error_cases tokens _ e fresh_inRange he with h | h | h
      · exact Or.inl h
      · exact Or.inr (Or.inl h)
      · exact Or.inr (Or.inr (Or.inl h))
    constructor
    · rcases batchLoop_inRange tokens (rpnEvaluator.fresh : rpnEvaluator V) fresh_inRange with
        ⟨e, he⟩ | ⟨r1, hr1, _⟩
      · rw [EvaluateBatch_of_loop_error tokens e he]
        intro hc
        cases hc
        exact hbatch _ he rfl
      · rw [EvaluateBatch_of_loop_ok tokens r1 hr1]
        by_cases h1 : r1.ptr = 1
        · rw [if_pos h1]; intro hc; cases hc
        · rw [if_neg h1]; intro hc; revert hc; simp [grpcErrorf, EvalError.Error]
    · intro c se out hout hc
      obtain ⟨out', hout', h⟩ := streamLoop_outcome c se tokens
        (rpnEvaluator.fresh : rpnEvaluator V) fresh_inRange
      simp only [EvaluateStream] at hout
      rw [hout'] at hout
      cases hout
      rcases h with ⟨e, he, herr, _⟩ | ⟨r1, _, _, hnil⟩
      · rw [herr] at hc
        cases hc
        exact hbatch _ he rfl
      · rw [streamLoop_nil] at hnil
        cases c with
        | failure e => simp only at hnil; cases hnil; cases hc
        | EOF =>
          simp only at hnil
          by_cases h1 : r1.ptr = 1
          · rw [if_pos h1] at hnil; cases hnil
            cases se <;> cases hc
          · rw [if_neg h1] at hnil; cases hnil
            revert hc; simp [grpcErrorf, EvalError.Error]

end EvaluatorClaims

section ResultClaim

variable {V : Type} [Zero V]

/-- C20 (amended): a successful `result()` leaves the stored values as they
were but pops the value: on a state with count 1 it returns the bottom slot and
the count becomes 0, so a second `result()` on the same instance fails with the
incomplete-expression error. -/
theorem C20_result_pops (r : rpnEvaluator V) (h : r.ptr = 1) :
    r.result = .ret ((r.stack ⟨0, by decide⟩, none), { r with ptr := 0 }) ∧
    rpnEvaluator.result { r with ptr := 0 }
      = .ret ((0, some .IncompleteExpression), { r with ptr := 0 }) :=
  ⟨result_of_one r h, result_of_ne_one _ (by simp)⟩

end ResultClaim

section MoreWitnesses

theorem C14_division_by_zero_witness :
    (({ stack := fun i => if i.val = 0 then 1 else 0, ptr := 2 } : rpnEvaluator ENNReal).ptr
      ≤ (stackSize : Int)) ∧
    ({ stack := fun i => if i.val = 0 then 1 else 0, ptr := 2 } : rpnEvaluator ENNReal).resident
      = [] ++ [1, 0] ∧
    (∃ r', ({ stack := fun i => if i.val = 0 then 1 else 0, ptr := 2 }
        : rpnEvaluator ENNReal).pushOperator .DIVIDE = .ret (none, r') ∧ r'.resident = [⊤]) ∧
    EvaluateBatch none (⟨[.operand 1, .operand 0, .operator .DIVIDE]⟩
        : EvaluateBatchRequest ENNReal) = .ret (some ⟨⊤⟩, none) := by
  have hcap : ({ stack := fun i => if i.val = 0 then 1 else 0, ptr := 2 }
      : rpnEvaluator ENNReal).ptr ≤ (stackSize : Int) := by decide
  have hres : ({ stack := fun i => if i.val = 0 then 1 else 0, ptr := 2 }
      : rpnEvaluator ENNReal).resident = [] ++ [1, 0] := by
    simp [rpnEvaluator.resident, List.ofFn_succ, stackSize]
  have hdiv : (1 : ENNReal) / 0 = ⊤ := ENNReal.div_zero one_ne_zero
  have hc := C14_division_by_zero _ [] (1 : ENNReal) hcap hres
  obtain ⟨r', hp, hr', _⟩ := hc.1
  have hb := (hc.2 1).1
  rw [hdiv] at hb
  exact ⟨hcap, hres, ⟨r', hp, by rw [hr', hdiv]; rfl⟩, hb⟩

theorem C15_unsupported_operator_witness :
    2 ≤ afterFifteen.ptr ∧ afterFifteen.ptr ≤ (stackSize : Int) ∧
    batchLoop rpnEvaluator.fresh fifteen = .ret (.ok afterFifteen) ∧
    (∃ r', afterFifteen.pushOperator (.UNRECOGNIZED 7)
        = .ret (some (.UnsupportedOperator (.UNRECOGNIZED 7)), r') ∧
      r'.stack = afterFifteen.stack) ∧
    EvaluateBatch none ⟨fifteen ++ [Token.operator (.UNRECOGNIZED 7), Token.operand 1]⟩
      = .ret (none, some (.status .InvalidArgument "unimplemented operator: 7")) := by
  have h2 : 2 ≤ afterFifteen.ptr := by decide
  have hcap : afterFifteen.ptr ≤ (stackSize : Int) := by decide
  have hp : batchLoop rpnEvaluator.fresh fifteen = .ret (.ok afterFifteen) := by
    simp [fifteen, List.replicate, batchLoop, rpnEvaluator.pushOperand, rpnEvaluator.stackSet,
      rpnEvaluator.fresh, stackSize, afterFifteen]
    funext i
    fin_cases i <;> simp [Function.update]
  have hc := C15_unsupported_operator afterFifteen 7 h2 hcap
  exact ⟨h2, hcap, hp, hc.1, (hc.2 fifteen [Token.operand 1] hp).1⟩

theorem C18_pushOperator_never_stack_full_witness :
    runCalls rpnEvaluator.fresh fifteenCalls = .ret afterFifteen ∧
    (∀ r', afterFifteen.pushOperator .ADD ≠ .ret (some .StackFull, r')) ∧
    (∃ r', afterFifteen.pushOperator .ADD = .ret (none, r')) := by
  have hr : runCalls rpnEvaluator.fresh fifteenCalls = .ret afterFifteen := by
    simp [fifteenCalls, List.replicate, runCalls, Call.exec, rpnEvaluator.pushOperand,
      rpnEvaluator.stackSet, rpnEvaluator.fresh, stackSize, afterFifteen]
    funext i
    fin_cases i <;> simp [Function.update]
  have hc := C18_pushOperator_never_stack_full fifteenCalls afterFifteen hr .ADD
  exact ⟨hr, hc.1, hc.2.1 (by decide) rfl⟩

theorem C20_result_mutates_counterexample :
    ∃ r', oneValue.result = .ret ((5, none), r') ∧ r'.ptr = 0 ∧ r'.ptr ≠ oneValue.ptr ∧
      r'.result = .ret ((0, some .IncompleteExpression), r') := by
  refine ⟨{ oneValue with ptr := 0 }, ?_, rfl, by decide, ?_⟩
  · have h := result_of_one oneValue rfl
    simpa [oneValue] using h
  · exact result_of_ne_one _ (by decide)

theorem C20_result_pops_witness :
    oneValue.ptr = 1 ∧
    oneValue.result = .ret ((5, none), { oneValue with ptr := 0 }) ∧
    rpnEvaluator.result { oneValue with ptr := 0 }
      = .ret ((0, some .IncompleteExpression), { oneValue with ptr := 0 }) := by
  have hc := C20_result_pops oneValue rfl
  refine ⟨rfl, ?_, hc.2⟩
  have h := hc.1
  simpa [oneValue] using h

end MoreWitnesses

/-! ## The client -/

section ClientLemmas

theorem head_of_dropWhile (p : Char → Bool) (l : List Char) (a : Char) (rest : List Char)
    (h : l.dropWhile p = a :: rest) : p a = false := by
  induction l with
  | nil => simp at h
  | cons b l ih =>
    by_cases hb : p b = true
    · rw [List.dropWhile_cons_of_pos hb] at h
      exact ih h
    · rw [List.dropWhile_cons_of_neg hb] at h
      cases h
      simpa using hb

theorem dropWhile_rdropWhile_dropWhile (p : Char → Bool) (l : List Char) :
    ((l.dropWhile p).rdropWhile p).dropWhile p = (l.dropWhile p).rdropWhile p := by
  obtain ⟨t, ht⟩ : (l.dropWhile p).rdropWhile p <+: l.dropWhile p := List.rdropWhile_prefix p _
  cases hq : (l.dropWhile p).rdropWhile p with
  | nil => rfl
  | cons a q =>
    rw [hq, List.cons_append] at ht
    have ha := head_of_dropWhile p l a (q ++ t) ht.symm
    rw [List.dropWhile_cons_of_neg (by simp [ha])]

theorem TrimSpace_idempotent (s : String) : TrimSpace (TrimSpace s) = TrimSpace s := by
  unfold TrimSpace
  simp only [dropWhile_rdropWhile_dropWhile, List.rdropWhile_idempotent]

end ClientLemmas

section ClientClaims

variable {V : Type}

/-- C12: `parseToken(s)` depends only on `s` with the surrounding white space
trimmed; if the trimmed text is exactly "+", "-", "*" or "/" the result is the
operator token ADD, SUBTRACT, MULTIPLY or DIVIDE; otherwise it is the operand
token holding the value `strconv.ParseFloat` returns for the trimmed text, or
the error of `strconv.ParseFloat` and no token. -/
theorem C12_parseToken_contract (parseFloat : String → Except String V) (s : String) :
    parseToken parseFloat s = parseToken parseFloat (TrimSpace s) ∧
    (TrimSpace s = "+" → parseToken parseFloat s = .ok (.operator .ADD)) ∧
    (TrimSpace s = "-" → parseToken parseFloat s = .ok (.operator .SUBTRACT)) ∧
    (TrimSpace s = "*" → parseToken parseFloat s = .ok (.operator .MULTIPLY)) ∧
    (TrimSpace s = "/" → parseToken parseFloat s = .ok (.operator .DIVIDE)) ∧
    (TrimSpace s ≠ "+" → TrimSpace s ≠ "-" → TrimSpace s ≠ "*" → TrimSpace s ≠ "/" →
      (∀ v, parseFloat (TrimSpace s) = .ok v → parseToken parseFloat s = .ok (.operand v)) ∧
      (∀ err, parseFloat (TrimSpace s) = .error err →
        parseToken parseFloat s = .error err)) := by
  refine ⟨?_, ?_, ?_, ?_, ?_, ?_⟩
  · simp only [parseToken, TrimSpace_idempotent]
  · intro h; simp only [parseToken, h, if_true]
  · intro h
    simp only [parseToken, h]
    rw [if_neg (by decide), if_pos trivial]
  · intro h
    simp only [parseToken, h]
    rw [if_neg (by decide), if_neg (by decide), if_pos trivial]
  · intro h
    simp only [parseToken, h]
    rw [if_neg (by decide), if_neg (by decide), if_neg (by decide), if_pos trivial]
  · intro h1 h2 h3 h4
    constructor
    · intro v hv
      simp only [parseToken, if_neg h1, if_neg h2, if_neg h3, if_neg h4, hv]
    · intro err hv
      simp only [parseToken, if_neg h1, if_neg h2, if_neg h3, if_neg h4, hv]

theorem C12_parseToken_contract_witness :
    TrimSpace " + " = "+" ∧ parseToken decimalFloat " + " = .ok (.operator .ADD) ∧
    TrimSpace " 3 " = "3" ∧ decimalFloat "3" = .ok 3 ∧
    parseToken decimalFloat " 3 " = .ok (.operand 3) ∧
    TrimSpace "a" = "a" ∧
    decimalFloat "a" = .error "strconv.ParseFloat: parsing \"a\": invalid syntax" ∧
    parseToken decimalFloat "a"
      = .error "strconv.ParseFloat: parsing \"a\": invalid syntax" := by
  have t1 : TrimSpace " + " = "+" := by decide
  have t2 : TrimSpace " 3 " = "3" := by decide
  have t3 : TrimSpace "a" = "a" := by decide
  have f2 : decimalFloat "3" = .ok 3 := by
    simp [decimalFloat]
  have f3 : decimalFloat "a"
      = .error "strconv.ParseFloat: parsing \"a\": invalid syntax" := by
    simp [decimalFloat]
  have c1 := C12_parseToken_contract decimalFloat " + "
  have c2 := C12_parseToken_contract decimalFloat " 3 "
  have c3 := C12_parseToken_contract decimalFloat "a"
  refine ⟨t1, c1.2.1 t1, t2, f2, ?_, t3, f3, ?_⟩
  · exact (c2.2.2.2.2.2 (by rw [t2]; decide) (by rw [t2]; decide) (by rw [t2]; decide)
      (by rw [t2]; decide)).1 3 (by rw [t2]; exact f2)
  · exact (c3.2.2.2.2.2 (by rw [t3]; decide) (by rw [t3]; decide) (by rw [t3]; decide)
      (by rw [t3]; decide)).2 _ (by rw [t3]; exact f3)

end ClientClaims

section ClientRunLemmas

variable {V : Type} [Zero V]

omit [Zero V] in
theorem clientParseAll_of_bad (parseFloat : String → Except String V) (bad : String)
    (rest : List String) (e : String) (hbad : parseToken parseFloat bad = .error e) :
    ∀ (good : List String) (toks : List (Token V)),
      good.map (parseToken parseFloat) = toks.map .ok →
      clientParseAll parseFloat (good ++ bad :: rest) = .error e := by
  intro good
  induction good with
  | nil => intro toks _; simp only [List.nil_append, clientParseAll, hbad]
  | cons g good ih =>
    intro toks h
    cases toks with
    | nil => simp at h
    | cons t toks =>
      simp only [List.map_cons, List.cons.injEq] at h
      rw [List.cons_append]
      simp only [clientParseAll, h.1, ih toks h.2]

omit [Zero V] in
/-- The send loop on a list with a bad entry: it passes to `Send` an initial
segment of the tokens before the bad entry and ends with an error; it passes
all of them, and ends with the parse error, when no `Send` fails. -/
theorem clientSendLoop_of_bad (parseFloat : String → Except String V) (stub : Stub V)
    (bad : String) (rest : List String) (e : String)
    (hbad : parseToken parseFloat bad = .error e) :
    ∀ (good : List String) (toks sent : List (Token V)),
      good.map (parseToken parseFloat) = toks.map .ok →
      (∃ k, (clientSendLoop parseFloat stub sent (good ++ bad :: rest)).1
            = sent ++ toks.take k ∧
          (clientSendLoop parseFloat stub sent (good ++ bad :: rest)).2 ≠ none) ∧
      ((∀ pre t, stub.send pre t = none) →
        clientSendLoop parseFloat stub sent (good ++ bad :: rest)
          = (sent ++ toks, some (.parse e))) := by
  intro good
  induction good with
  | nil =>
    intro toks sent h
    cases toks with
    | nil =>
      simp only [List.nil_append, clientSendLoop, hbad, List.append_nil]
      exact ⟨⟨0, by simp, by simp⟩, fun _ => trivial⟩
    | cons t toks => simp at h
  | cons g good ih =>
    intro toks sent h
    cases toks with
    | nil => simp at h
    | cons t toks =>
      simp only [List.map_cons, List.cons.injEq] at h
      obtain ⟨⟨k, hk1, hk2⟩, hall⟩ := ih toks (sent ++ [t]) h.2
      rw [List.cons_append]
      simp only [clientSendLoop, h.1]
      constructor
      · cases hs : stub.send sent t with
        | some err => exact ⟨1, by simp, by simp⟩
        | none =>
          refine ⟨k + 1, ?_, ?_⟩
          · simp only [hk1, List.take_succ_cons, List.append_assoc, List.singleton_append]
          · exact hk2
      · intro hq
        simp only [hq, hall hq, List.append_assoc, List.singleton_append]

end ClientRunLemmas

section ClientRunClaims

variable {V : Type} [Zero V]

/-- C13 (amended): when the entry `bad` fails to parse and every entry before
it parses, `Client.EvaluateBatch` returns the parse error without any call on
the stub. `Client.EvaluateStream` opens the stream first; it then returns an
error having passed to `Send` only an initial segment of the tokens that
precede `bad`, never `bad` or a later entry, and without calling
`CloseAndRecv`; when opening and sending do not fail, it has sent every token
that precedes `bad` and the error is the parse error. -/
theorem C13_parse_failure (parseFloat : String → Except String V) (stub : Stub V)
    (good : List String) (toks : List (Token V)) (bad : String) (rest : List String)
    (e : String) (hgood : good.map (parseToken parseFloat) = toks.map .ok)
    (hbad : parseToken parseFloat bad = .error e) :
    Client.EvaluateBatch parseFloat stub (good ++ bad :: rest)
      = { value := 0, err := some (.parse e), calls := [] } ∧
    (∃ k, (Client.EvaluateStream parseFloat stub (good ++ bad :: rest)).calls
        = .openStream :: (toks.take k).map .send ∧
      (Client.EvaluateStream parseFloat stub (good ++ bad :: rest)).err ≠ none) ∧
    (stub.openStream = none → (∀ pre t, stub.send pre t = none) →
      Client.EvaluateStream parseFloat stub (good ++ bad :: rest)
        = { value := 0, err := some (.parse e), calls := .openStream :: toks.map .send }) := by
  obtain ⟨⟨k, hk1, hk2⟩, hall⟩ :=
    clientSendLoop_of_bad parseFloat stub bad rest e hbad good toks [] hgood
  refine ⟨?_, ?_, ?_⟩
  · simp only [Client.EvaluateBatch, clientParseAll_of_bad parseFloat bad rest e hbad good toks hgood]
  · cases ho : stub.openStream with
    | some err =>
      exact ⟨0, by simp [Client.EvaluateStream, ho], by simp [Client.EvaluateStream, ho]⟩
    | none =>
      cases hl : clientSendLoop parseFloat stub [] (good ++ bad :: rest) with
      | mk sent err =>
        rw [hl] at hk1 hk2
        simp only [List.nil_append] at hk1
        cases err with
        | none => exact absurd rfl hk2
        | some err =>
          refine ⟨k, ?_, ?_⟩
          · simp only [Client.EvaluateStream, ho, hl, hk1]
          · simp only [Client.EvaluateStream, ho, hl]
            simp
  · intro ho hq
    simp only [Client.EvaluateStream, ho, hall hq, List.nil_append]

theorem C13_parse_failure_witness :
    ["5"].map (parseToken decimalFloat) = [Token.operand 5].map .ok ∧
    parseToken decimalFloat "a"
      = .error "strconv.ParseFloat: parsing \"a\": invalid syntax" ∧
    Client.EvaluateBatch decimalFloat quietStub (["5"] ++ "a" :: ["+"])
      = { value := 0,
          err := some (.parse "strconv.ParseFloat: parsing \"a\": invalid syntax"),
          calls := [] } ∧
    Client.EvaluateStream decimalFloat quietStub (["5"] ++ "a" :: ["+"])
      = { value := 0,
          err := some (.parse "strconv.ParseFloat: parsing \"a\": invalid syntax"),
          calls := .openStream :: [Token.operand 5].map .send } := by
  have hgood : ["5"].map (parseToken decimalFloat) = [Token.operand 5].map .ok := by
    simp [parseToken, decimalFloat, TrimSpace, List.rdropWhile, isSpace]
  have hbad : parseToken decimalFloat "a"
      = .error "strconv.ParseFloat: parsing \"a\": invalid syntax" := by
    simp [parseToken, decimalFloat, TrimSpace, List.rdropWhile, isSpace]
  have hc := C13_parse_failure decimalFloat quietStub ["5"] [Token.operand 5] "a" ["+"]
    "strconv.ParseFloat: parsing \"a\": invalid syntax" hgood hbad
  exact ⟨hgood, hbad, hc.1, hc.2.2 rfl (fun _ _ => rfl)⟩

theorem C13_stream_transmits_counterexample :
    Client.EvaluateStream decimalFloat quietStub ["5", "a", "+"]
      = { value := 0,
          err := some (.parse "strconv.ParseFloat: parsing \"a\": invalid syntax"),
          calls := [.openStream, .send (.operand 5)] } ∧
    (Client.EvaluateStream decimalFloat quietStub ["5", "a", "+"]).calls ≠ [] := by
  have h : Client.EvaluateStream decimalFloat quietStub ["5", "a", "+"]
      = { value := 0,
          err := some (.parse "strconv.ParseFloat: parsing \"a\": invalid syntax"),
          calls := [.openStream, .send (.operand 5)] } := by
    simp [Client.EvaluateStream, clientSendLoop, quietStub, parseToken, decimalFloat, TrimSpace,
      List.rdropWhile, isSpace]
  exact ⟨h, by rw [h]; simp⟩

end ClientRunClaims

/-! ## Success of a batch in terms of the running depth -/

section DepthLemmas

variable {V : Type}

theorem depth_cons (t : Token V) (l : List (Token V)) : depth (t :: l) = depth l + depth [t] := by
  cases t <;> simp only [depth] <;> omega

theorem violatesAt_succ (d : Int) (t : Token V) (ts : List (Token V)) (k : Nat) :
    violatesAt d (t :: ts) (k + 1) = violatesAt (d + depth [t]) ts k := by
  have h : d + depth (t :: List.take k ts) = d + depth [t] + depth (List.take k ts) := by
    rw [depth_cons]; omega
  simp only [violatesAt, List.getElem?_cons_succ, List.take_succ_cons, h]

theorem codeAt_succ (t : Token V) (ts : List (Token V)) (k : Nat) :
    codeAt (t :: ts) (k + 1) = codeAt ts k := by
  simp only [codeAt, List.getElem?_cons_succ]

variable [Add V] [Sub V] [Mul V] [Div V]

/-- The batch loop from a state within range, token by token: with no violation
it runs to its end and the count has moved by the depth of the list; at the
first violation it returns an error under the code of that position. -/
theorem batchLoop_by_depth (tokens : List (Token V)) :
    ∀ r : rpnEvaluator V, r.inRange → (∀ t ∈ tokens, t.wellFormed = true) →
      ((∀ k < tokens.length, violatesAt r.ptr tokens k = false) →
        ∃ r', batchLoop r tokens = .ret (.ok r') ∧ r'.inRange ∧
          r'.ptr = r.ptr + depth tokens) ∧
      (∀ k < tokens.length, violatesAt r.ptr tokens k = true →
        (∀ j < k, violatesAt r.ptr tokens j = false) →
        ∃ msg, batchLoop r tokens = .ret (.error (.status (codeAt tokens k) msg))) := by
  have hs : (stackSize : Int) = 16 := rfl
  induction tokens with
  | nil =>
    intro r hr _
    exact ⟨fun _ => ⟨r, rfl, hr, by simp [depth]⟩, fun k hk => absurd hk (by simp)⟩
  | cons t ts ih =>
    intro r hr hwf
    have hwf' : ∀ t ∈ ts, t.wellFormed = true := fun t ht => hwf t (List.mem_cons_of_mem _ ht)
    cases t with
    | operand v =>
      have h0 : violatesAt r.ptr (Token.operand v :: ts) 0
          = decide ((stackSize : Int) - 2 < r.ptr) := by
        simp [violatesAt, depth]
      rcases pushOperand_inRange r v hr with ⟨hp, hfull⟩ | ⟨r1, hp, hr1, hptr1, _⟩
      · -- the stack is full: position 0 is a violation
        have hv0 : violatesAt r.ptr (Token.operand v :: ts) 0 = true := by
          rw [h0]; simp; omega
        constructor
        · intro hno
          have := hno 0 (by simp)
          rw [hv0] at this; cases this
        · intro k _ _ hfirst
          have hk0 : k = 0 := by
            by_contra hne
            have := hfirst 0 (by omega)
            rw [hv0] at this; cases this
          subst hk0
          exact ⟨_, by simp only [batchLoop, hp, codeAt, List.getElem?_cons_zero]; rfl⟩
      · have hlt : r.ptr < (stackSize : Int) - 1 := by have := hr1.2; omega
        have hv0 : violatesAt r.ptr (Token.operand v :: ts) 0 = false := by
          rw [h0]; simp; omega
        have hd : r.ptr + depth [Token.operand v] = r1.ptr := by
          simp only [depth]; omega
        obtain ⟨ihA, ihB⟩ := ih r1 hr1 hwf'
        constructor
        · intro hno
          obtain ⟨r', h1, h2, h3⟩ := ihA (fun k hk => by
            have := hno (k + 1) (by simp only [List.length_cons]; omega)
            rwa [violatesAt_succ, hd] at this)
          refine ⟨r', by simp only [batchLoop, hp, h1], h2, ?_⟩
          rw [h3, depth_cons, ← hd]; omega
        · intro k hk hvk hfirst
          cases k with
          | zero => rw [hv0] at hvk; cases hvk
          | succ k =>
            obtain ⟨msg, hm⟩ := ihB k (by simp only [List.length_cons] at hk; omega)
              (by rwa [violatesAt_succ, hd] at hvk)
              (fun j hj => by
                have := hfirst (j + 1) (by omega)
                rwa [violatesAt_succ, hd] at this)
            exact ⟨msg, by simp only [batchLoop, hp, hm, codeAt_succ]⟩
    | operator op =>
      have hop : op.supported = true := by
        have := hwf (.operator op) (List.mem_cons_self _ _)
        simpa [Token.wellFormed] using this
      have h0 : violatesAt r.ptr (Token.operator op :: ts) 0 = decide (r.ptr < 2) := by
        simp [violatesAt, depth]
      rcases pushOperator_inRange r op hr with ⟨hlt, hp⟩ | ⟨_, hf, _⟩ | ⟨h2, _, r1, hp, hr1, hptr1⟩
      · have hv0 : violatesAt r.ptr (Token.operator op :: ts) 0 = true := by
          rw [h0]; simp; omega
        constructor
        · intro hno
          have := hno 0 (by simp)
          rw [hv0] at this; cases this
        · intro k _ _ hfirst
          have hk0 : k = 0 := by
            by_contra hne
            have := hfirst 0 (by omega)
            rw [hv0] at this; cases this
          subst hk0
          exact ⟨_, by simp only [batchLoop, hp, codeAt, List.getElem?_cons_zero]; rfl⟩
      · rw [hop] at hf; cases hf
      · have hv0 : violatesAt r.ptr (Token.operator op :: ts) 0 = false := by
          rw [h0]; simp; omega
        have hd : r.ptr + depth ([Token.operator op] : List (Token V)) = r1.ptr := by
          simp only [depth]; omega
        obtain ⟨ihA, ihB⟩ := ih r1 hr1 hwf'
        constructor
        · intro hno
          obtain ⟨r', h1, h2', h3⟩ := ihA (fun k hk => by
            have := hno (k + 1) (by simp only [List.length_cons]; omega)
            rwa [violatesAt_succ, hd] at this)
          refine ⟨r', by simp only [batchLoop, hp, h1], h2', ?_⟩
          rw [h3, depth_cons, ← hd]; omega
        · intro k hk hvk hfirst
          cases k with
          | zero => rw [hv0] at hvk; cases hvk
          | succ k =>
            obtain ⟨msg, hm⟩ := ihB k (by simp only [List.length_cons] at hk; omega)
              (by rwa [violatesAt_succ, hd] at hvk)
              (fun j hj => by
                have := hfirst (j + 1) (by omega)
                rwa [violatesAt_succ, hd] at this)
            exact ⟨msg, by simp only [batchLoop, hp, hm, codeAt_succ]⟩
    | unset =>
      have := hwf .unset (List.mem_cons_self _ _)
      simp [Token.wellFormed] at this

end DepthLemmas

section DepthClaim

variable {V : Type} [Zero V] [Add V] [Sub V] [Mul V] [Div V]

/-- C19: on a list of operands and supported operators, with the depth of a
list being its operands minus its operators, `EvaluateBatch` with a live
context succeeds exactly when no operator is preceded by depth below 2, no
operand is preceded by depth above 14, and the depth of the whole list is 1.
Otherwise it fails: at the first position that breaks its bound, under
resource-exhausted if that token is an operand and under invalid-argument if
it is an operator; and, when no position breaks its bound, at finalization
under invalid-argument with the incomplete-expression text. -/
theorem C19_batch_success_by_depth (tokens : List (Token V))
    (hwf : ∀ t ∈ tokens, t.wellFormed = true) :
    ((∃ v, EvaluateBatch none ⟨tokens⟩ = .ret (some ⟨v⟩, none)) ↔
      (∀ k < tokens.length, violatesAt 0 tokens k = false) ∧ depth tokens = 1) ∧
    (∀ k < tokens.length, violatesAt 0 tokens k = true →
      (∀ j < k, violatesAt 0 tokens j = false) →
      ∃ msg, EvaluateBatch none ⟨tokens⟩ = .ret (none, some (.status (codeAt tokens k) msg))) ∧
    ((∀ k < tokens.length, violatesAt 0 tokens k = false) → depth tokens ≠ 1 →
      EvaluateBatch none ⟨tokens⟩ = .ret (none, some (.status .InvalidArgument
        "incomplete expression: unused operands still in stack"))) := by
  obtain ⟨hA, hB⟩ := batchLoop_by_depth tokens (rpnEvaluator.fresh : rpnEvaluator V)
    fresh_inRange hwf
  have hptr0 : (rpnEvaluator.fresh : rpnEvaluator V).ptr = 0 := rfl
  rw [hptr0] at hA hB
  have hfirst : ∀ k < tokens.length, violatesAt 0 tokens k = true →
      (∀ j < k, violatesAt 0 tokens j = false) →
      ∃ msg, EvaluateBatch none ⟨tokens⟩ = .ret (none, some (.status (codeAt tokens k) msg)) := by
    intro k hk hv hj
    obtain ⟨msg, hm⟩ := hB k hk hv hj
    exact ⟨msg, EvaluateBatch_of_loop_error tokens _ hm⟩
  have hend : (∀ k < tokens.length, violatesAt 0 tokens k = false) →
      ∃ r, batchLoop (rpnEvaluator.fresh : rpnEvaluator V) tokens = .ret (.ok r) ∧
        r.ptr = depth tokens := by
    intro hno
    obtain ⟨r, h1, _, h3⟩ := hA hno
    exact ⟨r, h1, by rw [h3]; omega⟩
  refine ⟨⟨?_, ?_⟩, hfirst, ?_⟩
  · rintro ⟨v, hv⟩
    have hno : ∀ k < tokens.length, violatesAt 0 tokens k = false := by
      by_contra hex
      have hex' : ∃ k, k < tokens.length ∧ violatesAt 0 tokens k = true := by
        by_contra hall
        apply hex
        intro k hk
        cases hvk : violatesAt 0 tokens k with
        | false => rfl
        | true => exact absurd ⟨k, hk, hvk⟩ hall
      have hmin := Nat.find_spec hex'
      have hbelow : ∀ j < Nat.find hex', violatesAt 0 tokens j = false := by
        intro j hj
        have hnot := Nat.find_min hex' hj
        cases hvj : violatesAt 0 tokens j with
        | false => rfl
        | true => exact absurd ⟨by omega, hvj⟩ hnot
      obtain ⟨msg, hm⟩ := hfirst _ hmin.1 hmin.2 hbelow
      rw [hm] at hv
      cases hv
    refine ⟨hno, ?_⟩
    obtain ⟨r, hr, hptr⟩ := hend hno
    rw [EvaluateBatch_of_loop_ok tokens r hr] at hv
    by_cases h1 : r.ptr = 1
    · rw [← hptr]; exact h1
    · rw [if_neg h1] at hv; cases hv
  · rintro ⟨hno, hd⟩
    obtain ⟨r, hr, hptr⟩ := hend hno
    rw [EvaluateBatch_of_loop_ok tokens r hr, if_pos (by rw [hptr]; exact hd)]
    exact ⟨_, rfl⟩
  · intro hno hd
    obtain ⟨r, hr, hptr⟩ := hend hno
    rw [EvaluateBatch_of_loop_ok tokens r hr, if_neg (by rw [hptr]; exact hd)]
    rfl

theorem C19_batch_success_by_depth_witness :
    ((∀ t ∈ scenarioC, t.wellFormed = true) ∧ violatesAt 0 scenarioC 0 = true ∧
      codeAt scenarioC 0 = .InvalidArgument ∧
      ∃ msg, EvaluateBatch none ⟨scenarioC⟩ = .ret (none, some (.status .InvalidArgument msg))) ∧
    ((∀ t ∈ scenarioD, t.wellFormed = true) ∧
      (∀ k < scenarioD.length, violatesAt 0 scenarioD k = false) ∧ depth scenarioD = 2 ∧
      EvaluateBatch none ⟨scenarioD⟩ = .ret (none, some (.status .InvalidArgument
        "incomplete expression: unused operands still in stack"))) ∧
    ((∀ t ∈ scenarioA, t.wellFormed = true) ∧
      (∀ k < scenarioA.length, violatesAt 0 scenarioA k = false) ∧ depth scenarioA = 1 ∧
      ∃ v, EvaluateBatch none ⟨scenarioA⟩ = .ret (some ⟨v⟩, none)) := by
  have wC : ∀ t ∈ scenarioC, t.wellFormed = true := by
    simp [scenarioC, Token.wellFormed, Operator.supported]
  have wD : ∀ t ∈ scenarioD, t.wellFormed = true := by
    simp [scenarioD, Token.wellFormed, Operator.supported]
  have wA : ∀ t ∈ scenarioA, t.wellFormed = true := by
    simp [scenarioA, Token.wellFormed, Operator.supported]
  have vC : violatesAt 0 scenarioC 0 = true := by decide
  have vD : ∀ k < scenarioD.length, violatesAt 0 scenarioD k = false := by decide
  have vA : ∀ k < scenarioA.length, violatesAt 0 scenarioA k = false := by decide
  have dD : depth scenarioD = 2 := by decide
  have dA : depth scenarioA = 1 := by decide
  have cC := C19_batch_success_by_depth scenarioC wC
  have cD := C19_batch_success_by_depth scenarioD wD
  have cA := C19_batch_success_by_depth scenarioA wA
  refine ⟨⟨wC, vC, rfl, ?_⟩, ⟨wD, vD, dD, ?_⟩, ⟨wA, vA, dA, ?_⟩⟩
  · exact cC.2.1 0 (by decide) vC (fun j hj => absurd hj (by omega))
  · exact cD.2.2 vD (by rw [dD]; decide)
  · exact cA.1.2 ⟨vA, dA⟩

end DepthClaim

/-! ## Failing calls and the count -/

section FailingCalls

variable {V : Type}

theorem pushOperand_error_unchanged (r : rpnEvaluator V) (v : V) (e : EvalError)
    (r' : rpnEvaluator V) (h : r.pushOperand v = .ret (some e, r')) :
    e = .StackFull ∧ r' = r := by
  rcases le_or_lt ((stackSize : Int) - 1) r.ptr with hge | hlt
  · rw [pushOperand_of_ge r v hge] at h
    cases h
    exact ⟨rfl, rfl⟩
  · rcases lt_or_le r.ptr 0 with hneg | h0
    · rw [pushOperand_of_neg r v hneg] at h; cases h
    · obtain ⟨i, hi⟩ := exists_index r.ptr h0 (by omega)
      rw [pushOperand_of_lt r v i hi hlt] at h
      cases h

theorem pushOperator_of_gt_size [Add V] [Sub V] [Mul V] [Div V] (r : rpnEvaluator V)
    (op : Operator) (h : (stackSize : Int) < r.ptr) : r.pushOperator op = .panic := by
  have hs : (stackSize : Int) = 16 := rfl
  unfold rpnEvaluator.pushOperator
  rw [if_neg (by omega), pop_of_not_bounds r (Or.inr h)]

/-- Every way in which `pushOperator` returns an error, on any state. -/
theorem pushOperator_error_cases [Add V] [Sub V] [Mul V] [Div V] (r : rpnEvaluator V)
    (op : Operator) (e : EvalError) (r' : rpnEvaluator V)
    (h : r.pushOperator op = .ret (some e, r')) :
    (r.ptr < 2 ∧ e = .InsufficientOperands ∧ r' = r) ∨
    (2 ≤ r.ptr ∧ op.supported = false ∧ e = .UnsupportedOperator op ∧
      r' = { r with ptr := r.ptr - 2 }) := by
  have hs : (stackSize : Int) = 16 := rfl
  rcases lt_or_le r.ptr 2 with hlt | h2
  · rw [pushOperator_of_lt_two r op hlt] at h
    cases h
    exact Or.inl ⟨hlt, rfl, rfl⟩
  · rcases lt_or_le (stackSize : Int) r.ptr with hbig | hcap
    · rw [pushOperator_of_gt_size r op hbig] at h; cases h
    · obtain ⟨i, hi⟩ := exists_index (r.ptr - 2) (by omega) (by omega)
      obtain ⟨j, hj⟩ := exists_index (r.ptr - 1) (by omega) (by omega)
      rw [pushOperator_of_index r op i j hi hj] at h
      cases op with
      | UNRECOGNIZED tag =>
        simp only [Operator.apply] at h
        cases h
        exact Or.inr ⟨h2, rfl, rfl, rfl⟩
      | ADD => simp only [Operator.apply] at h; cases h
      | SUBTRACT => simp only [Operator.apply] at h; cases h
      | MULTIPLY => simp only [Operator.apply] at h; cases h
      | DIVIDE => simp only [Operator.apply] at h; cases h

end FailingCalls

section FailingCallsClaim

variable {V : Type} [Zero V] [Add V] [Sub V] [Mul V] [Div V]

/-- C21: a failing `pushOperator` is not atomic in the unsupported-operator
case. On a state with `n ≥ 2` resident values (a count that fits the array) and
a tag outside the four supported ones, `pushOperator` returns the
unsupported-operator error and leaves the count at `n - 2`: the two popped
operands are not restored. Every other failing call leaves the evaluator as it
was: a failing `pushOperand` (the stack is full), a `pushOperator` that fails
for any other reason (fewer than two values), and a failing `result()` (a count
other than 1). -/
theorem C21_unsupported_operator_not_atomic (r : rpnEvaluator V) :
    (∀ tag : Int, 2 ≤ r.ptr → r.ptr ≤ (stackSize : Int) →
      r.pushOperator (.UNRECOGNIZED tag)
        = .ret (some (.UnsupportedOperator (.UNRECOGNIZED tag)),
            { r with ptr := r.ptr - 2 })) ∧
    (∀ v e r', r.pushOperand v = .ret (some e, r') → r' = r) ∧
    ((stackSize : Int) - 1 ≤ r.ptr → ∀ v, r.pushOperand v = .ret (some .StackFull, r)) ∧
    (∀ op e r', r.pushOperator op = .ret (some e, r') →
      (e = .UnsupportedOperator op ∧ r'.ptr = r.ptr - 2) ∨ r' = r) ∧
    (r.ptr < 2 → ∀ op, r.pushOperator op = .ret (some .InsufficientOperands, r)) ∧
    (∀ v e r', r.result = .ret ((v, some e), r') → r' = r) ∧
    (r.ptr ≠ 1 → r.result = .ret ((0, some .IncompleteExpression), r)) := by
  have hs : (stackSize : Int) = 16 := rfl
  refine ⟨?_, ?_, ?_, ?_, ?_, ?_, ?_⟩
  · intro tag h2 hcap
    obtain ⟨i, hi⟩ := exists_index (r.ptr - 2) (by omega) (by omega)
    obtain ⟨j, hj⟩ := exists_index (r.ptr - 1) (by omega) (by omega)
    have hpo := pushOperator_of_index r (.UNRECOGNIZED tag) i j hi hj
    simp only [Operator.apply] at hpo
    exact hpo
  · intro v e r' h
    exact (pushOperand_error_unchanged r v e r' h).2
  · intro hge v
    exact pushOperand_of_ge r v hge
  · intro op e r' h
    rcases pushOperator_error_cases r op e r' h with ⟨_, _, hr⟩ | ⟨_, _, he, hr⟩
    · exact Or.inr hr
    · exact Or.inl ⟨he, by rw [hr]⟩
  · intro hlt op
    exact pushOperator_of_lt_two r op hlt
  · intro v e r' h
    by_cases h1 : r.ptr = 1
    · rw [result_of_one r h1] at h; cases h
    · rw [result_of_ne_one r h1] at h; cases h; rfl
  · exact result_of_ne_one r

theorem C21_unsupported_operator_not_atomic_witness :
    2 ≤ tenTwo.ptr ∧ tenTwo.ptr ≤ (stackSize : Int) ∧
    tenTwo.pushOperator (.UNRECOGNIZED 7)
      = .ret (some (.UnsupportedOperator (.UNRECOGNIZED 7)), { tenTwo with ptr := 0 }) ∧
    (stackSize : Int) - 1 ≤ afterFifteen.ptr ∧
    afterFifteen.pushOperand 24 = .ret (some .StackFull, afterFifteen) ∧
    oneValue.ptr < 2 ∧
    oneValue.pushOperator .ADD = .ret (some .InsufficientOperands, oneValue) ∧
    tenTwo.ptr ≠ 1 ∧
    tenTwo.result = .ret ((0, some .IncompleteExpression), tenTwo) := by
  have h2 : 2 ≤ tenTwo.ptr := by decide
  have hcap : tenTwo.ptr ≤ (stackSize : Int) := by decide
  have hfull : (stackSize : Int) - 1 ≤ afterFifteen.ptr := by decide
  have hlt : oneValue.ptr < 2 := by decide
  have hne : tenTwo.ptr ≠ 1 := by decide
  exact ⟨h2, hcap, (C21_unsupported_operator_not_atomic tenTwo).1 7 h2 hcap, hfull,
    (C21_unsupported_operator_not_atomic afterFifteen).2.2.1 hfull 24, hlt,
    (C21_unsupported_operator_not_atomic oneValue).2.2.2.2.1 hlt .ADD, hne,
    (C21_unsupported_operator_not_atomic tenTwo).2.2.2.2.2.2 hne⟩

end FailingCallsClaim

/-! ## Tokens whose union is not set are passed over -/

section UnsetLemmas

variable {V : Type} [Zero V] [Add V] [Sub V] [Mul V] [Div V]

omit [Zero V] [Add V] [Sub V] [Mul V] [Div V] in
theorem dropUnset_cons_unset (ts : List (Token V)) :
    dropUnset (Token.unset :: ts) = dropUnset ts := by
  simp [dropUnset, Token.isUnset]

omit [Zero V] [Add V] [Sub V] [Mul V] [Div V] in
theorem dropUnset_cons_operand (v : V) (ts : List (Token V)) :
    dropUnset (Token.operand v :: ts) = Token.operand v :: dropUnset ts := by
  simp [dropUnset, Token.isUnset]

omit [Zero V] [Add V] [Sub V] [Mul V] [Div V] in
theorem dropUnset_cons_operator (op : Operator) (ts : List (Token V)) :
    dropUnset (Token.operator op :: ts : List (Token V)) = Token.operator op :: dropUnset ts := by
  simp [dropUnset, Token.isUnset]

omit [Zero V] in
/-- The batch loop returns the same on a list and on the list without its unset
tokens, from every state. -/
theorem batchLoop_dropUnset (tokens : List (Token V)) :
    ∀ r : rpnEvaluator V, batchLoop r (dropUnset tokens) = batchLoop r tokens := by
  induction tokens with
  | nil => intro r; rfl
  | cons t ts ih =>
    intro r
    cases t with
    | operand v =>
      rw [dropUnset_cons_operand]
      simp only [batchLoop]
      cases r.pushOperand v with
      | panic => rfl
      | ret x =>
        obtain ⟨e, r1⟩ := x
        cases e with
        | some e => rfl
        | none => exact ih r1
    | operator op =>
      rw [dropUnset_cons_operator]
      simp only [batchLoop]
      cases r.pushOperator op with
      | panic => rfl
      | ret x =>
        obtain ⟨e, r1⟩ := x
        cases e with
        | some e => rfl
        | none => exact ih r1
    | unset =>
      rw [dropUnset_cons_unset]
      simp only [batchLoop]
      exact ih r

/-- The stream loop on a list and on the list without its unset tokens, from
every state: both panic, or both return, with the same error and the same
messages sent; the requests left unread differ only by the unset tokens. -/
theorem streamLoop_dropUnset (c : RecvEnd) (se : Option String) (tokens : List (Token V)) :
    ∀ r : rpnEvaluator V,
      (streamLoop c se r (tokens.map fun t => ⟨some t⟩) = .panic ∧
        streamLoop c se r ((dropUnset tokens).map fun t => ⟨some t⟩) = .panic) ∨
      ∃ out out' us,
        streamLoop c se r (tokens.map fun t => ⟨some t⟩) = .ret out ∧
        streamLoop c se r ((dropUnset tokens).map fun t => ⟨some t⟩) = .ret out' ∧
        out'.err = out.err ∧ out'.sent = out.sent ∧
        out.unread = us.map (fun t => ⟨some t⟩) ∧
        out'.unread = (dropUnset us).map fun t => ⟨some t⟩ := by
  induction tokens with
  | nil =>
    intro r
    cases h : streamLoop c se r [] with
    | panic => left; exact ⟨h, h⟩
    | ret out =>
      right
      refine ⟨out, out, [], h, h, rfl, rfl, ?_, ?_⟩
      · rw [streamLoop_nil] at h
        cases c with
        | failure e => simp only at h; cases h; rfl
        | EOF =>
          simp only at h
          by_cases h1 : r.ptr = 1
          · rw [if_pos h1] at h; cases h; rfl
          · rw [if_neg h1] at h; cases h; rfl
      · rw [streamLoop_nil] at h
        cases c with
        | failure e => simp only at h; cases h; rfl
        | EOF =>
          simp only at h
          by_cases h1 : r.ptr = 1
          · rw [if_pos h1] at h; cases h; rfl
          · rw [if_neg h1] at h; cases h; rfl
  | cons t ts ih =>
    intro r
    cases t with
    | operand v =>
      rw [dropUnset_cons_operand]
      simp only [List.map_cons, streamLoop]
      cases r.pushOperand v with
      | panic => left; exact ⟨rfl, rfl⟩
      | ret x =>
        obtain ⟨e, r1⟩ := x
        cases e with
        | some e => right; exact ⟨_, _, ts, rfl, rfl, rfl, rfl, rfl, rfl⟩
        | none => exact ih r1
    | operator op =>
      rw [dropUnset_cons_operator]
      simp only [List.map_cons, streamLoop]
      cases r.pushOperator op with
      | panic => left; exact ⟨rfl, rfl⟩
      | ret x =>
        obtain ⟨e, r1⟩ := x
        cases e with
        | some e => right; exact ⟨_, _, ts, rfl, rfl, rfl, rfl, rfl, rfl⟩
        | none => exact ih r1
    | unset =>
      rw [dropUnset_cons_unset]
      simp only [List.map_cons, streamLoop]
      exact ih r

end UnsetLemmas

section UnsetClaim

variable {V : Type} [Zero V] [Add V] [Sub V] [Mul V] [Div V]

/-- C22: a token whose union is not set is passed over, not rejected. For every
token list, `EvaluateBatch` returns the same on the list and on the list
without its unset tokens, and `EvaluateStream` returns the same error and sends
the same messages on both (the requests it leaves unread differ only by the
unset tokens); and both loops go on from an unset token with the evaluator they
had. -/
theorem C22_unset_token_skipped (tokens : List (Token V)) :
    (∀ ctxErr, EvaluateBatch ctxErr ⟨dropUnset tokens⟩ = EvaluateBatch ctxErr ⟨tokens⟩) ∧
    (∀ c se, ∃ out out' us,
      EvaluateStream ⟨tokens.map fun t => ⟨some t⟩, c, se⟩ = .ret out ∧
      EvaluateStream ⟨(dropUnset tokens).map fun t => ⟨some t⟩, c, se⟩ = .ret out' ∧
      out'.err = out.err ∧ out'.sent = out.sent ∧
      out.unread = us.map (fun t => ⟨some t⟩) ∧
      out'.unread = (dropUnset us).map fun t => ⟨some t⟩) ∧
    (∀ (r : rpnEvaluator V) (rest : List (Token V)),
      batchLoop r (.unset :: rest) = batchLoop r rest ∧
      batchLoop r [.unset] = .ret (.ok r) ∧
      ∀ c se (reqs : List (EvaluateStreamRequest V)),
        streamLoop c se r (⟨some .unset⟩ :: reqs) = streamLoop c se r reqs) := by
  refine ⟨?_, ?_, ?_⟩
  · intro ctxErr
    cases ctxErr with
    | some e => rfl
    | none => simp only [EvaluateBatch, batchLoop_dropUnset]
  · intro c se
    rcases streamLoop_dropUnset c se tokens (rpnEvaluator.fresh : rpnEvaluator V) with
      ⟨hp, _⟩ | h
    · obtain ⟨out, hout, _⟩ := streamLoop_outcome c se tokens
        (rpnEvaluator.fresh : rpnEvaluator V) fresh_inRange
      rw [hp] at hout
      cases hout
    · exact h
  · intro r rest
    refine ⟨by simp only [batchLoop], by simp only [batchLoop], ?_⟩
    intro c se reqs
    simp only [streamLoop]

theorem C22_unset_token_skipped_witness :
    dropUnset scenarioAWithUnset = scenarioA ∧
    EvaluateBatch none ⟨scenarioAWithUnset⟩ = EvaluateBatch none ⟨scenarioA⟩ ∧
    batchLoop tenTwo [Token.unset] = .ret (.ok tenTwo) := by
  have hd : dropUnset scenarioAWithUnset = scenarioA := by
    simp [dropUnset, scenarioAWithUnset, scenarioA, Token.isUnset]
  have hc := C22_unset_token_skipped scenarioAWithUnset
  refine ⟨hd, ?_, ((C22_unset_token_skipped scenarioAWithUnset).2.2 tenTwo []).2.1⟩
  have := hc.1 none
  rw [hd] at this
  exact this.symm

end UnsetClaim

section StreamReplyWitness

theorem C16_at_most_one_reply_witness :
    (batchLoop rpnEvaluator.fresh [Token.operand 5] = .ret (.ok oneValue) ∧
      oneValue.result = .ret ((5, none), { oneValue with ptr := 0 }) ∧
      ∃ out, EvaluateStream (⟨[Token.operand 5].map fun t => ⟨some t⟩, .EOF, none⟩
          : ServerStream ℚ) = .ret out ∧
        out.sent = [⟨5⟩] ∧ out.unread = [] ∧ out.err = none) ∧
    (batchLoop rpnEvaluator.fresh scenarioC
        = .ret (.error (.status .InvalidArgument "not enough operands")) ∧
      ∃ out, EvaluateStream (⟨scenarioC.map fun t => ⟨some t⟩, .EOF, none⟩
          : ServerStream ℚ) = .ret out ∧
        out.err = some (.status .InvalidArgument "not enough operands") ∧ out.sent = []) ∧
    (batchLoop rpnEvaluator.fresh [Token.operand 10, Token.operand 2] = .ret (.ok tenTwo) ∧
      tenTwo.result = .ret ((0, some .IncompleteExpression), tenTwo) ∧
      ∃ out, EvaluateStream (⟨[Token.operand 10, Token.operand 2].map fun t => ⟨some t⟩,
          .EOF, none⟩ : ServerStream ℚ) = .ret out ∧
        out.err = some (.status .InvalidArgument
          "incomplete expression: unused operands still in stack") ∧ out.sent = []) := by
  have hloop : batchLoop rpnEvaluator.fresh [Token.operand 5] = .ret (.ok oneValue) := by
    simp [batchLoop, rpnEvaluator.pushOperand, rpnEvaluator.stackSet, rpnEvaluator.fresh,
      stackSize, oneValue]
    funext i
    fin_cases i <;> simp [Function.update]
  have hres : oneValue.result = .ret ((5, none), { oneValue with ptr := 0 }) := by
    have h := result_of_one oneValue rfl
    simpa [oneValue] using h
  have hfail : batchLoop rpnEvaluator.fresh scenarioC
      = .ret (.error (.status .InvalidArgument "not enough operands")) := by
    simp [scenarioC, batchLoop, rpnEvaluator.pushOperator, rpnEvaluator.fresh, grpcErrorf,
      EvalError.Error]
  have hloop2 : batchLoop rpnEvaluator.fresh [Token.operand 10, Token.operand 2]
      = .ret (.ok tenTwo) := by
    simp [batchLoop, rpnEvaluator.pushOperand, rpnEvaluator.stackSet, rpnEvaluator.fresh,
      stackSize, tenTwo]
    funext i
    fin_cases i <;> simp [Function.update]
  have hres2 : tenTwo.result = .ret ((0, some .IncompleteExpression), tenTwo) :=
    result_of_ne_one tenTwo (by decide)
  obtain ⟨out, hout, _, _, _, hsucc, _⟩ := C16_at_most_one_reply [Token.operand (5 : ℚ)] .EOF none
  obtain ⟨h1, h2, h3⟩ := hsucc oneValue 5 _ hloop rfl hres
  obtain ⟨out', hout', _, _, _, _, hpush, _⟩ := C16_at_most_one_reply scenarioC .EOF none
  obtain ⟨h4, h5⟩ := hpush _ hfail
  obtain ⟨out2, hout2, _, _, _, _, _, hfin, _⟩ :=
    C16_at_most_one_reply [Token.operand (10 : ℚ), Token.operand 2] .EOF none
  obtain ⟨h6, h7⟩ := hfin tenTwo 0 _ _ hloop2 rfl hres2
  exact ⟨⟨hloop, hres, out, hout, h1, h2, h3⟩, ⟨hfail, out', hout', h4, h5⟩,
    ⟨hloop2, hres2, out2, hout2, h6, h7⟩⟩

end StreamReplyWitness

end Calculator
